import Mathlib

/-!
# Style set resolution of the Ubuntu UI toolkit

A shallow embedding of `modules/Ubuntu/Components/plugin/ucstyleset.cpp`
(`themeSearchPath`, `pathFromThemeName` and the methods of `UCStyleSet`)
together with the properties of the theme cascade, the name property, the
palette, the parent set and the style component factory, and a model of the
icon sizes that `tst_iconprovider.cpp` tests.

Qt library calls whose result depends on the machine the toolkit runs on
(the file system, the environment, the QML engine) are fields of `Host`;
every theorem holds for every host. Objects are addressed by numbers; the
style sets, the liveness of the palette objects and the import paths of the
engines make up a `World`. The loop of `updateThemePaths` follows the
`parent_theme` files and need not end, so it takes fuel.
-/

namespace UbuntuToolkit

/-! ## Strings -/

/-- QString::replace(QChar, QChar): every occurrence of `before` becomes `after`. -/
def replaceChar (s : String) (before after : Char) : String :=
  String.mk (s.data.map (fun c => if c = before then after else c))

/-- Loop of QString::split(sep, QString::SkipEmptyParts): `cur` is the part being read. -/
def splitAux (sep : Char) : List Char → List Char → List String
  | [], cur => if cur.isEmpty then [] else [String.mk cur]
  | c :: cs, cur =>
    if c = sep then
      if cur.isEmpty then splitAux sep cs [] else String.mk cur :: splitAux sep cs []
    else splitAux sep cs (cur ++ [c])

/-- QString::split(sep, QString::SkipEmptyParts). -/
def splitSkipEmptyParts (s : String) (sep : Char) : List String :=
  splitAux sep s.data []

/-! ## QUrl -/

/-- A QUrl as far as the style set looks at it: the scheme, the path and
whether parsing recorded an error. Theme URLs are local files, so authority,
query and fragment are not represented. -/
structure QUrl where
  scheme : String
  path : String
  error : Bool
deriving DecidableEq, Repr

namespace QUrl

/-- The default constructed URL, `QUrl()`. -/
def empty : QUrl := ⟨"", "", false⟩

/-- QUrl::isEmpty. -/
def isEmpty (u : QUrl) : Bool := decide (u.scheme = "") && decide (u.path = "")

/-- QUrl::isValid: the URL is non-empty and has no error. -/
def isValid (u : QUrl) : Bool := !u.isEmpty && !u.error

/-- QUrl::fromLocalFile: a `file` URL of the given path, the empty URL for
an empty path. -/
def fromLocalFile (localFile : String) : QUrl :=
  if localFile = "" then empty else ⟨"file", localFile, false⟩

/-- QUrl::toLocalFile: the path of a `file` URL, the empty string otherwise. -/
def toLocalFile (u : QUrl) : String :=
  if u.scheme = "file" then u.path else ""

end QUrl

/-! ## The host -/

/-- What the style set asks of the machine and of the Qt libraries. -/
structure Host where
  /-- The value of getenv as a QString: empty when the variable is unset. -/
  getenv : String → String
  /-- QStandardPaths::standardLocations(QStandardPaths::GenericDataLocation). -/
  genericDataLocation : List String
  /-- QLibraryInfo::location(QLibraryInfo::Qml2ImportsPath). -/
  qml2ImportsPath : String
  /-- QDir::currentPath(). -/
  currentPath : String
  /-- QDir(path).exists(). -/
  dirExists : String → Bool
  /-- QDir(path).absolutePath(). -/
  absolutePath : String → String
  /-- QFile::exists(path). -/
  fileExists : String → Bool
  /-- QFile::open(ReadOnly | Text) followed by QTextStream::readLine: `none`
  when the file cannot be opened, else its first line (empty for an empty file). -/
  readLine : String → Option String
  /-- QUrl::resolved applied to a base URL and a relative reference. -/
  resolved : QUrl → String → QUrl
  /-- The address of qmlEngine(object), `none` for NULL. -/
  qmlEngine : Nat → Option Nat
  /-- Whether QuickUtils::createQmlObject(url, engine) yields an object. -/
  createQmlObject : QUrl → Nat → Bool
  /-- QQmlComponent::isError of a component created synchronously by the
  engine, with the import path list it has then, from the URL. -/
  componentIsError : Nat → List String → QUrl → Bool

/-! ## Theme folders -/

/-- THEME_FOLDER_FORMAT("%1/%2/") with both arguments substituted. -/
def THEME_FOLDER_FORMAT (arg1 arg2 : String) : String :=
  arg1 ++ "/" ++ arg2 ++ "/"

/-- PARENT_THEME_FILE. -/
def PARENT_THEME_FILE : String := "parent_theme"

/-- themeSearchPath(): the folders themes are looked up in. -/
def themeSearchPath (h : Host) : List String :=
  let envPath := h.getenv "UBUNTU_UI_TOOLKIT_THEMES_PATH"
  let pathList := splitSkipEmptyParts envPath ':'
  let pathList :=
    if pathList.isEmpty then
      let xdgDirs := h.getenv "XDG_DATA_DIRS"
      let pathList :=
        if xdgDirs ≠ "" then pathList ++ splitSkipEmptyParts xdgDirs ':' else pathList
      pathList ++ h.genericDataLocation
    else pathList
  let qml2ImportPath := h.getenv "QML2_IMPORT_PATH"
  let pathList :=
    if qml2ImportPath ≠ "" then pathList ++ splitSkipEmptyParts qml2ImportPath ':'
    else pathList
  let pathList := pathList ++ splitSkipEmptyParts h.qml2ImportsPath ':'
  let result := (pathList.filter h.dirExists).map (fun path => path ++ "/")
  h.currentPath :: result

/-- The absolute folder, with its trailing slash, that pathFromThemeName
tests for a search path and a theme name whose dots are already replaced. -/
def absoluteThemeFolder (h : Host) (path themeName : String) : String :=
  h.absolutePath (THEME_FOLDER_FORMAT path themeName) ++ "/"

/-- The Q_FOREACH loop of pathFromThemeName over the search path. -/
def pathFromThemeNameLoop (h : Host) (themeName : String) : List String → QUrl
  | [] => QUrl.empty
  | path :: rest =>
    if h.dirExists (absoluteThemeFolder h path themeName) then
      QUrl.fromLocalFile (absoluteThemeFolder h path themeName)
    else pathFromThemeNameLoop h themeName rest

/-- pathFromThemeName(themeName). -/
def pathFromThemeName (h : Host) (themeName : String) : QUrl :=
  pathFromThemeNameLoop h (replaceChar themeName '.' '/') (themeSearchPath h)

/-! ## The style set object -/

/-- The members of a UCStyleSet. Pointers are addresses, `none` is NULL. -/
structure UCStyleSet where
  /-- QObject::parent(). -/
  parent : Option Nat
  m_name : String
  /-- The theme name that `m_themeSettings.themeName()` reports. -/
  m_themeSettings : String
  m_themePaths : List QUrl
  /-- A `QPointer<QObject>`: it reads as NULL once the object is deleted. -/
  m_palette : Option Nat
  m_engine : Option Nat
  m_defaultStyle : Bool
  m_completed : Bool
  /-- Connections from `m_themeSettings.themeNameChanged` to `onThemeNameChanged`. -/
  connections : Nat
  /-- How often `nameChanged` was emitted. -/
  nameChanged : Nat
  /-- How often `paletteChanged` was emitted. -/
  paletteChanged : Nat
deriving DecidableEq, Repr

/-- UCStyleSet::name(). -/
def UCStyleSet.name (s : UCStyleSet) : String :=
  if s.m_name ≠ "" then s.m_name else s.m_themeSettings

/-- The Q_FOREACH loop of UCStyleSet::styleUrl over the theme paths. -/
def styleUrlLoop (h : Host) (styleName : String) : List QUrl → QUrl
  | [] => QUrl.empty
  | themePath :: rest =>
    let styleUrl := h.resolved themePath styleName
    if styleUrl.isValid && h.fileExists styleUrl.toLocalFile then styleUrl
    else styleUrlLoop h styleName rest

/-- UCStyleSet::styleUrl(styleName). -/
def UCStyleSet.styleUrl (h : Host) (s : UCStyleSet) (styleName : String) : QUrl :=
  styleUrlLoop h styleName s.m_themePaths

/-- UCStyleSet::parentThemeName(themeName). -/
def parentThemeName (h : Host) (themeName : String) : String :=
  let themePath := pathFromThemeName h themeName
  if !themePath.isValid then ""
  else
    match h.readLine (h.resolved themePath PARENT_THEME_FILE).toLocalFile with
    | some line => line
    | none => ""

/-- The while loop of UCStyleSet::updateThemePaths: `none` when the loop is
still running after `fuel` rounds. -/
def updateThemePathsLoop (h : Host) : Nat → String → List QUrl → Option (List QUrl)
  | 0, themeName, m_themePaths => if themeName = "" then some m_themePaths else none
  | fuel + 1, themeName, m_themePaths =>
    if themeName = "" then some m_themePaths
    else
      let themePath := pathFromThemeName h themeName
      let m_themePaths :=
        if themePath.isValid then m_themePaths ++ [themePath] else m_themePaths
      updateThemePathsLoop h fuel (parentThemeName h themeName) m_themePaths

/-- UCStyleSet::updateThemePaths(). -/
def UCStyleSet.updateThemePaths (h : Host) (fuel : Nat) (s : UCStyleSet) : Option UCStyleSet :=
  match updateThemePathsLoop h fuel s.name [] with
  | some paths => some { s with m_themePaths := paths }
  | none => none

/-- UCStyleSet::init(). -/
def UCStyleSet.init (h : Host) (fuel : Nat) (s : UCStyleSet) : Option UCStyleSet :=
  UCStyleSet.updateThemePaths h fuel
    { s with m_completed := false, connections := s.connections + 1 }

/-- UCStyleSet::onThemeNameChanged(). -/
def UCStyleSet.onThemeNameChanged (h : Host) (fuel : Nat) (s : UCStyleSet) : Option UCStyleSet :=
  match UCStyleSet.updateThemePaths h fuel s with
  | some s1 => some { s1 with nameChanged := s1.nameChanged + 1 }
  | none => none

/-! ## Objects and pointers -/

/-- The objects the style sets live among. Address `0` is `defaultSet()`. -/
structure World where
  /-- The style set at an address. -/
  sets : Nat → Option UCStyleSet
  /-- Whether the QObject (a palette) at an address exists. -/
  alive : Nat → Bool
  /-- The address the next created QObject gets. -/
  nextObject : Nat
  /-- QQmlEngine::importPathList() of the engine at an address. -/
  importPathList : Nat → List String

/-- The address of `UCStyleSet::defaultSet()`. -/
def defaultSet : Nat := 0

/-- Store the members of the style set at `address`. -/
def World.setSet (w : World) (address : Nat) (s : UCStyleSet) : World :=
  { w with sets := fun a => if a = address then some s else w.sets a }

/-- QPointer::data(): the object pointed to, NULL when it was deleted. -/
def World.data (w : World) (pointer : Option Nat) : Option Nat :=
  match pointer with
  | some object => if w.alive object then some object else none
  | none => none

/-- The C++ `delete object`. -/
def World.deleteObject (w : World) (object : Nat) : World :=
  { w with alive := fun a => if a = object then false else w.alive a }

/-- QuickUtils::createQmlObject(url, engine): a new object, or NULL. -/
def World.createQmlObject (h : Host) (url : QUrl) (engine : Nat) (w : World) :
    Option Nat × World :=
  if h.createQmlObject url engine then
    (some w.nextObject,
      { w with alive := fun a => if a = w.nextObject then true else w.alive a,
               nextObject := w.nextObject + 1 })
  else (none, w)

/-- The pointer that `defaultSet().m_palette` reads as. -/
def World.defaultPalette (w : World) : Option Nat :=
  match w.sets defaultSet with
  | some d => w.data d.m_palette
  | none => none

/-- The engine `defaultSet().m_engine`. -/
def World.defaultEngine (w : World) : Option Nat :=
  match w.sets defaultSet with
  | some d => d.m_engine
  | none => none

/-! ## Methods that reach other objects -/

/-- The Q_FOREACH loop of UCStyleSet::updateEnginePaths; QQmlEngine::addImportPath
puts the new path first. -/
def addImportPaths (h : Host) : List String → List String → List String
  | [], importPathList => importPathList
  | path :: rest, importPathList =>
    if h.dirExists path && !importPathList.contains path then
      addImportPaths h rest (path :: importPathList)
    else addImportPaths h rest importPathList

/-- UCStyleSet::updateEnginePaths(). -/
def updateEnginePaths (h : Host) (self : Nat) (w : World) : World :=
  match w.sets self with
  | none => w
  | some s =>
    match s.m_engine with
    | none => w
    | some engine =>
      { w with importPathList := fun e =>
          if e = engine then addImportPaths h (themeSearchPath h) (w.importPathList engine)
          else w.importPathList e }

/-- UCStyleSet::classBegin(). -/
def classBegin (h : Host) (self : Nat) (w : World) : World :=
  match w.sets self with
  | none => w
  | some s => updateEnginePaths h self (w.setSet self { s with m_engine := h.qmlEngine self })

/-- UCStyleSet::loadPalette(notify). -/
def loadPalette (h : Host) (notify : Bool) (self : Nat) (w : World) : World :=
  match w.sets self with
  | none => w
  | some s =>
    match s.m_engine with
    | none => w
    | some engine =>
      let w1 :=
        match w.data s.m_palette with
        | some object => w.deleteObject object
        | none => w
      let paletteUrl := s.styleUrl h "Palette.qml"
      if paletteUrl.isValid then
        let created := w1.createQmlObject h paletteUrl engine
        created.2.setSet self
          { s with m_palette := created.1,
                   paletteChanged := if notify then s.paletteChanged + 1 else s.paletteChanged }
      else
        w1.setSet self { s with m_palette := w1.defaultPalette }

/-- UCStyleSet::palette(): the palette and the objects afterwards. -/
def palette (h : Host) (self : Nat) (w : World) : Option Nat × World :=
  match w.sets self with
  | none => (none, w)
  | some s =>
    let w1 := if (w.data s.m_palette).isNone then loadPalette h false self w else w
    match w1.sets self with
    | some s1 => (w1.data s1.m_palette, w1)
    | none => (none, w1)

/-- The members `setName` computes before it touches the engine and the palette. -/
def setNameUpdated (h : Host) (fuel : Nat) (s : UCStyleSet) (name : String) :
    Option UCStyleSet :=
  if name = "" then UCStyleSet.init h fuel { s with m_name := name }
  else UCStyleSet.updateThemePaths h fuel { s with m_name := name, connections := 0 }

/-- UCStyleSet::setName(name); loadPalette is called with its default
argument, which notifies. `none` when updateThemePaths does not return. -/
def setName (h : Host) (fuel : Nat) (self : Nat) (name : String) (w : World) : Option World :=
  match w.sets self with
  | none => some w
  | some s =>
    if name = s.m_name then some w
    else
      let s1 := { s with m_name := name }
      let updated :=
        if name = "" then s1.init h fuel
        else UCStyleSet.updateThemePaths h fuel { s1 with connections := 0 }
      match updated with
      | none => none
      | some s2 =>
        let w3 := loadPalette h true self (updateEnginePaths h self (w.setSet self s2))
        match w3.sets self with
        | some s3 => some (w3.setSet self { s3 with nameChanged := s3.nameChanged + 1 })
        | none => some w3

/-- UCStyleSet::resetName(). -/
def resetName (h : Host) (fuel : Nat) (self : Nat) (w : World) : Option World :=
  setName h fuel self "" w

/-- The constructor UCStyleSet(QObject *parent) run at address `self`;
`themeName` is what the new object's theme settings report. -/
def construct (h : Host) (fuel : Nat) (self : Nat) (parent : Option Nat) (themeName : String)
    (w : World) : Option World :=
  let s : UCStyleSet :=
    { parent := parent, m_name := "", m_themeSettings := themeName, m_themePaths := [],
      m_palette := w.defaultPalette, m_engine := w.defaultEngine, m_defaultStyle := false,
      m_completed := false, connections := 0, nameChanged := 0, paletteChanged := 0 }
  match s.init h fuel with
  | some s1 => some (w.setSet self s1)
  | none => none

/-- The constructor UCStyleSet(bool defaultStyle) run at address `self`
(the application font it sets is not part of the model). -/
def constructDefault (h : Host) (fuel : Nat) (self : Nat) (defaultStyle : Bool)
    (themeName : String) (w : World) : Option World :=
  let s : UCStyleSet :=
    { parent := none, m_name := "", m_themeSettings := themeName, m_themePaths := [],
      m_palette := none, m_engine := none, m_defaultStyle := defaultStyle,
      m_completed := false, connections := 0, nameChanged := 0, paletteChanged := 0 }
  match s.init h fuel with
  | some s1 => some (w.setSet self s1)
  | none => none

/-- UCStyleSet::registerToContext(context), as far as the style set goes:
`engine` is `context->engine()`. -/
def registerToContext (h : Host) (engine : Option Nat) (w : World) : World :=
  match w.sets defaultSet with
  | none => w
  | some d => updateEnginePaths h defaultSet (w.setSet defaultSet { d with m_engine := engine })

/-- Modelled from the spec: UCStyleSet::componentComplete() belongs to
ucstyleset.h, which is not among the sources; it is the moment the component
creation has completed, recorded in `m_completed`, the flag init() clears. -/
def componentComplete (self : Nat) (w : World) : World :=
  match w.sets self with
  | none => w
  | some s => w.setSet self { s with m_completed := true }

/-- A QQmlComponent: the engine and URL it was created from and its parent. -/
structure QQmlComponent where
  engine : Nat
  url : QUrl
  parent : Nat
deriving DecidableEq, Repr

/-- UCStyleSet::createStyleComponent(styleName, parent): the component, NULL
as `none`, and the objects afterwards. -/
def createStyleComponent (h : Host) (self : Nat) (styleName : String) (parent : Option Nat)
    (w : World) : Option QQmlComponent × World :=
  match w.sets self with
  | none => (none, w)
  | some s =>
    match parent with
    | none => (none, w)
    | some p =>
      let engine := h.qmlEngine p
      let w1 :=
        if engine ≠ s.m_engine ∧ s.m_engine = none then
          updateEnginePaths h self (w.setSet self { s with m_engine := engine })
        else w
      match engine with
      | none => (none, w1)
      | some e =>
        let url := s.styleUrl h styleName
        if url.isValid then
          if h.componentIsError e (w1.importPathList e) url then (none, w1)
          else (some ⟨e, url, p⟩, w1)
        else (none, w1)

/-- Delivery of `themeNameChanged` to the connected slots, once a connection. -/
def emitThemeNameChanged (h : Host) (fuel : Nat) : Nat → UCStyleSet → Option UCStyleSet
  | 0, s => some s
  | n + 1, s =>
    match s.onThemeNameChanged h fuel with
    | some s1 => emitThemeNameChanged h fuel n s1
    | none => none

/-- Modelled from the spec: UCThemeSettings, the type of `m_themeSettings`,
is not among the sources. The theme settings of the style set at `self`
report a new system theme name and emit `themeNameChanged`, which runs the
connected onThemeNameChanged slots. -/
def themeNameChanged (h : Host) (fuel : Nat) (self : Nat) (themeName : String) (w : World) :
    Option World :=
  match w.sets self with
  | none => some w
  | some s =>
    match emitThemeNameChanged h fuel s.connections { s with m_themeSettings := themeName } with
    | some s1 => some (w.setSet self s1)
    | none => none

/-! ## The styled items -/

/-- UCStyledItemBasePrivate, as far as parentSet reads it. -/
structure UCStyledItemBasePrivate where
  styleSet : Option Nat
  parentStyledItem : Option Nat
deriving DecidableEq, Repr

/-- The styled items around a style set. -/
structure ItemTree where
  /-- The private part of the UCStyledItemBase at an address, `none` when
  the qobject_cast fails. -/
  styledItem : Nat → Option UCStyledItemBasePrivate
  /-- UCStyledItemBasePrivate::getStyleSet() of the styled item at an address. -/
  getStyleSet : Nat → Option Nat

/-- UCStyleSet::parentSet() of the style set at address `self`. -/
def parentSet (t : ItemTree) (self : Nat) (s : UCStyleSet) : Option Nat :=
  let pOwner :=
    match s.parent with
    | some owner => t.styledItem owner
    | none => none
  match pOwner with
  | some o =>
    if o.styleSet = some self then
      match o.parentStyledItem with
      | some parentStyledItem => t.getStyleSet parentStyledItem
      | none => none
    else none
  | none => none

/-! ## Theme chains -/

/-- Whether `chain` is the parent chain of `themeName`: `themeName` itself,
then its parentThemeName, and so on up to, and without, the first empty name. -/
def isThemeChain (h : Host) : String → List String → Bool
  | themeName, [] => decide (themeName = "")
  | themeName, t :: rest =>
    decide (themeName ≠ "") && decide (t = themeName) &&
      isThemeChain h (parentThemeName h themeName) rest

/-- The folders of the themes of a chain that pathFromThemeName finds, in
chain order. -/
def chainFolders (h : Host) (chain : List String) : List QUrl :=
  (chain.map (pathFromThemeName h)).filter QUrl.isValid

/-- The test styleUrl makes for one theme path: the resolved URL is valid
and its file exists. -/
def styleFound (h : Host) (styleName : String) (themePath : QUrl) : Bool :=
  (h.resolved themePath styleName).isValid &&
    h.fileExists (h.resolved themePath styleName).toLocalFile

/-! ## Reachable worlds -/

/-- The world before any object exists. -/
def World.initial : World :=
  { sets := fun _ => none, alive := fun _ => false, nextObject := 1,
    importPathList := fun _ => [] }

/-- The worlds a program gets to: `defaultSet()` is constructed first, then
style sets are constructed and their methods are called, and the theme
settings of a style set may report a new system theme at any time. -/
inductive Reachable (h : Host) : World → Prop
  | start (fuel : Nat) (themeName : String) (w : World) :
      constructDefault h fuel defaultSet true themeName World.initial = some w → Reachable h w
  | construct (w : World) (fuel self : Nat) (parent : Option Nat) (themeName : String)
      (w1 : World) :
      Reachable h w → self ≠ defaultSet → w.sets self = none →
      construct h fuel self parent themeName w = some w1 → Reachable h w1
  | setName (w : World) (fuel self : Nat) (name : String) (w1 : World) :
      Reachable h w → setName h fuel self name w = some w1 → Reachable h w1
  | themeNameChanged (w : World) (fuel self : Nat) (themeName : String) (w1 : World) :
      Reachable h w → themeNameChanged h fuel self themeName w = some w1 → Reachable h w1
  | classBegin (w : World) (self : Nat) :
      Reachable h w → Reachable h (classBegin h self w)
  | componentComplete (w : World) (self : Nat) :
      Reachable h w → Reachable h (componentComplete self w)
  | registerToContext (w : World) (engine : Option Nat) :
      Reachable h w → Reachable h (registerToContext h engine w)
  | palette (w : World) (self : Nat) :
      Reachable h w → Reachable h (palette h self w).2
  | createStyleComponent (w : World) (self : Nat) (styleName : String) (parent : Option Nat) :
      Reachable h w → Reachable h (createStyleComponent h self styleName parent w).2

/-- What holds of every style set of a reachable world: a style set without
a name of its own listens to its theme settings, and the theme paths are
those updateThemePaths computes for name(). -/
def ThemeCurrent (h : Host) (s : UCStyleSet) : Prop :=
  (s.m_name = "" → 1 ≤ s.connections) ∧
  ∃ fuel, updateThemePathsLoop h fuel s.name [] = some s.m_themePaths

/-- Two states of a style set with the same name, theme settings, theme
paths and connections. -/
def SameTheme (s s1 : UCStyleSet) : Prop :=
  s1.m_name = s.m_name ∧ s1.m_themeSettings = s.m_themeSettings ∧
  s1.m_themePaths = s.m_themePaths ∧ s1.connections = s.connections

/-- Every style set of the world has its theme paths up to date. -/
def WorldCurrent (h : Host) (w : World) : Prop :=
  ∀ a s, w.sets a = some s → ThemeCurrent h s

/-- The step from `w` to `w1` creates no style set and keeps the theme
members of every style set. -/
def Frame (w w1 : World) : Prop :=
  ∀ a s1, w1.sets a = some s1 → ∃ s, w.sets a = some s ∧ SameTheme s s1

/-! ## Icon sizes -/

/-- A QSize. -/
structure QSize where
  width : Int
  height : Int
deriving DecidableEq, Repr

/-- What a call of requestPixmap hands back: the size of the returned pixmap
and the size written to the `realSize` out-parameter. -/
structure PixmapRequest where
  pixmapSize : QSize
  realSize : QSize
deriving DecidableEq, Repr

/-- Modelled from the spec: UnityThemeIconProvider::requestPixmap lives in
unitythemeiconprovider.cpp, which is not among the sources (only its test,
tst_iconprovider.cpp, is). `natural` is the size of the icon file. With no
positive requested dimension the icon keeps its natural size; with one
positive requested dimension that dimension is the request and the other is
scaled by the same factor, rounded down; the size is reported in `realSize`.
With two positive requested dimensions, which the spec leaves open, the rows
of test_loadIcon_data are met by scaling to cover the request. -/
def requestPixmap (natural requestedSize : QSize) : PixmapRequest :=
  let size : QSize :=
    if requestedSize.width ≤ 0 ∧ requestedSize.height ≤ 0 then natural
    else if requestedSize.width ≤ 0 then
      ⟨natural.width * requestedSize.height / natural.height, requestedSize.height⟩
    else if requestedSize.height ≤ 0 then
      ⟨requestedSize.width, natural.height * requestedSize.width / natural.width⟩
    else if requestedSize.width ≤ natural.width * requestedSize.height / natural.height then
      ⟨natural.width * requestedSize.height / natural.height, requestedSize.height⟩
    else
      ⟨requestedSize.width, natural.height * requestedSize.width / natural.width⟩
  ⟨size, size⟩

/-! ## A desktop used in the examples -/

/-- A machine with three themes under `/usr/share`. `Themes.Light` has a
`Button.qml`, a `Label.qml` (which fails to load) and a `Palette.qml`, and no
parent theme; `Themes.Dark` has a `Button.qml` and `Themes.Light` as parent
theme; `Themes.Plain` has a `Button.qml` only. Every object but the one at
address `7` belongs to the engine at address `100`. -/
def demoHost : Host where
  getenv := fun v => if v = "UBUNTU_UI_TOOLKIT_THEMES_PATH" then "/opt/themes::/usr/share" else ""
  genericDataLocation := []
  qml2ImportsPath := "/usr/lib/qml"
  currentPath := "/home/u"
  dirExists := fun d =>
    d = "/usr/share" || d = "/usr/lib/qml" || d = "/usr/share/Themes/Dark/" ||
    d = "/usr/share/Themes/Light/" || d = "/usr/share/Themes/Plain/"
  absolutePath := fun p =>
    if p = "/usr/share//Themes/Dark/" then "/usr/share/Themes/Dark"
    else if p = "/usr/share//Themes/Light/" then "/usr/share/Themes/Light"
    else if p = "/usr/share//Themes/Plain/" then "/usr/share/Themes/Plain"
    else p
  fileExists := fun f =>
    f = "/usr/share/Themes/Dark/Button.qml" || f = "/usr/share/Themes/Light/Button.qml" ||
    f = "/usr/share/Themes/Light/Label.qml" || f = "/usr/share/Themes/Light/Palette.qml" ||
    f = "/usr/share/Themes/Plain/Button.qml" || f = "/usr/share/Themes/Dark/parent_theme"
  readLine := fun f =>
    if f = "/usr/share/Themes/Dark/parent_theme" then some "Themes.Light" else none
  resolved := fun base relative => ⟨base.scheme, base.path ++ relative, base.error⟩
  qmlEngine := fun object => if object = 7 then none else some 100
  createQmlObject := fun _ _ => true
  componentIsError := fun _ _ url => decide (url.path = "/usr/share/Themes/Light/Label.qml")

/-- The folder URL of the theme `Themes.Dark` on the demo machine. -/
def darkFolder : QUrl := ⟨"file", "/usr/share/Themes/Dark/", false⟩

/-- The folder URL of the theme `Themes.Light` on the demo machine. -/
def lightFolder : QUrl := ⟨"file", "/usr/share/Themes/Light/", false⟩

/-- The default style set right after its construction on the demo machine
while the system theme is `Themes.Dark`. -/
def demoDefaultSet : UCStyleSet :=
  { parent := none, m_name := "", m_themeSettings := "Themes.Dark",
    m_themePaths := [darkFolder, lightFolder], m_palette := none, m_engine := none,
    m_defaultStyle := true, m_completed := false, connections := 1, nameChanged := 0,
    paletteChanged := 0 }

/-- The folder URL of the theme `Themes.Plain` on the demo machine. -/
def plainFolder : QUrl := ⟨"file", "/usr/share/Themes/Plain/", false⟩

/-- The demo world right after `defaultSet()` is constructed. -/
def demoStart : World := World.initial.setSet defaultSet demoDefaultSet

/-- A style set named `Themes.Light` whose theme paths are stale. -/
def staleSet : UCStyleSet :=
  { parent := none, m_name := "Themes.Dark", m_themeSettings := "Themes.Light",
    m_themePaths := [⟨"file", "/gone/", false⟩], m_palette := none, m_engine := none,
    m_defaultStyle := false, m_completed := false, connections := 0, nameChanged := 0,
    paletteChanged := 0 }

/-- The demo world after a style set is constructed at address `5` with the
QObject at address `9` as parent. -/
def demoChild : World :=
  (construct demoHost 2 5 (some 9) "Themes.Dark" demoStart).getD demoStart

/-- The demo world after the style set at `5` is named `Themes.Plain`. -/
def demoChildNamed : World :=
  (setName demoHost 2 5 "Themes.Plain" demoChild).getD demoChild

/-- The demo world after the creation of the style set at `5` has completed. -/
def demoChildCompleted : World := componentComplete 5 demoChildNamed

/-- The style set at `5` once its creation has completed. -/
def completedSet : UCStyleSet :=
  { parent := some 9, m_name := "Themes.Plain", m_themeSettings := "Themes.Dark",
    m_themePaths := [plainFolder], m_palette := none, m_engine := none,
    m_defaultStyle := false, m_completed := true, connections := 0, nameChanged := 1,
    paletteChanged := 0 }

/-- The demo world after `defaultSet()` is registered to a context of the
engine at address `100`. -/
def demoRegistered : World := registerToContext demoHost (some 100) demoStart

/-- The demo world after the palette of `defaultSet()` was asked for: it is
the object at address `1`. -/
def demoPaletteLoaded : World := (palette demoHost defaultSet demoRegistered).2

/-- The demo world after a style set is then constructed at address `5` with
the QObject at address `9` as parent. -/
def demoStyled : World :=
  (construct demoHost 2 5 (some 9) "Themes.Dark" demoPaletteLoaded).getD demoPaletteLoaded

/-- The demo world after that style set is named `Themes.Plain`, a theme
without a palette. -/
def demoStyledPlain : World :=
  (setName demoHost 2 5 "Themes.Plain" demoStyled).getD demoStyled


/-- Styled items of the demo: the item at `9` has the style set at `5` as
styleSet and the item at `8` as parent styled item, whose style set is
`defaultSet()`; the item at `8` has no style set of its own and no parent. -/
def demoItems : ItemTree where
  styledItem := fun a =>
    if a = 9 then some ⟨some 5, some 8⟩
    else if a = 8 then some ⟨none, none⟩
    else none
  getStyleSet := fun a => if a = 8 then some defaultSet else none

/-! ## Lemmas on strings and URLs -/

theorem append_slash_ne_empty (x : String) : x ++ "/" ≠ "" := by
  intro hx
  have hlen := congrArg String.length hx
  rw [String.length_append] at hlen
  have h1 : "/".length = 1 := by decide
  have h0 : "".length = 0 := by decide
  omega

theorem replaceChar_no_before (s : String) (before after : Char) (hne : after ≠ before) :
    before ∉ (replaceChar s before after).data := by
  simp only [replaceChar, List.mem_map, not_exists, not_and]
  intro c _ hc
  split at hc
  · exact hne hc
  · rename_i hcb
    exact hcb hc

theorem isValid_empty : QUrl.empty.isValid = false := by decide

theorem isValid_fromLocalFile (p : String) (hp : p ≠ "") :
    (QUrl.fromLocalFile p).isValid = true := by
  simp [QUrl.fromLocalFile, hp, QUrl.isValid, QUrl.isEmpty]

theorem fromLocalFile_eq (p : String) (hp : p ≠ "") :
    QUrl.fromLocalFile p = ⟨"file", p, false⟩ := by
  simp [QUrl.fromLocalFile, hp]

theorem absoluteThemeFolder_ne_empty (h : Host) (path themeName : String) :
    absoluteThemeFolder h path themeName ≠ "" :=
  append_slash_ne_empty _

/-! ## The loop of pathFromThemeName -/

theorem pathFromThemeNameLoop_first (h : Host) (themeName : String) :
    ∀ (pre : List String) (path : String) (post : List String),
      (∀ q ∈ pre, h.dirExists (absoluteThemeFolder h q themeName) = false) →
      h.dirExists (absoluteThemeFolder h path themeName) = true →
      pathFromThemeNameLoop h themeName (pre ++ path :: post) =
        QUrl.fromLocalFile (absoluteThemeFolder h path themeName) := by
  intro pre
  induction pre with
  | nil =>
    intro path post _ hhit
    simp [pathFromThemeNameLoop, hhit]
  | cons q pre ih =>
    intro path post hpre hhit
    have hq : h.dirExists (absoluteThemeFolder h q themeName) = false :=
      hpre q (List.mem_cons_self q pre)
    have hrest : ∀ r ∈ pre, h.dirExists (absoluteThemeFolder h r themeName) = false :=
      fun r hr => hpre r (List.mem_cons_of_mem q hr)
    simp only [List.cons_append, pathFromThemeNameLoop, hq]
    exact ih path post hrest hhit

theorem pathFromThemeNameLoop_none (h : Host) (themeName : String) :
    ∀ (paths : List String),
      (∀ q ∈ paths, h.dirExists (absoluteThemeFolder h q themeName) = false) →
      pathFromThemeNameLoop h themeName paths = QUrl.empty := by
  intro paths
  induction paths with
  | nil => intro _; rfl
  | cons q rest ih =>
    intro hall
    have hq := hall q (List.mem_cons_self q rest)
    simp only [pathFromThemeNameLoop, hq]
    exact ih (fun r hr => hall r (List.mem_cons_of_mem q hr))

theorem pathFromThemeNameLoop_valid (h : Host) (themeName : String) :
    ∀ (paths : List String),
      (∃ q ∈ paths, h.dirExists (absoluteThemeFolder h q themeName) = true) →
      (pathFromThemeNameLoop h themeName paths).isValid = true := by
  intro paths
  induction paths with
  | nil => intro hex; obtain ⟨q, hq, _⟩ := hex; cases hq
  | cons p rest ih =>
    intro hex
    by_cases hp : h.dirExists (absoluteThemeFolder h p themeName) = true
    · simp only [pathFromThemeNameLoop, hp, if_true]
      exact isValid_fromLocalFile _ (absoluteThemeFolder_ne_empty h p themeName)
    · obtain ⟨q, hq, hqe⟩ := hex
      have hq2 : q ∈ rest := by
        rcases List.mem_cons.mp hq with heq | hmem
        · subst heq; exact absurd hqe hp
        · exact hmem
      simp only [pathFromThemeNameLoop, hp]
      exact ih ⟨q, hq2, hqe⟩

theorem pathFromThemeNameLoop_invalid_iff (h : Host) (themeName : String) (paths : List String) :
    (pathFromThemeNameLoop h themeName paths).isValid = false ↔
      ∀ q ∈ paths, h.dirExists (absoluteThemeFolder h q themeName) = false := by
  constructor
  · intro hinv q hq
    by_contra hne
    have hq1 : h.dirExists (absoluteThemeFolder h q themeName) = true := by
      cases hd : h.dirExists (absoluteThemeFolder h q themeName) with
      | true => rfl
      | false => exact absurd hd hne
    have hval := pathFromThemeNameLoop_valid h themeName paths ⟨q, hq, hq1⟩
    rw [hinv] at hval
    cases hval
  · intro hall
    rw [pathFromThemeNameLoop_none h themeName paths hall]
    exact isValid_empty

/-! ## The loop of styleUrl -/

theorem styleUrlLoop_first (h : Host) (styleName : String) :
    ∀ (pre : List QUrl) (themePath : QUrl) (post : List QUrl),
      (∀ q ∈ pre, styleFound h styleName q = false) →
      styleFound h styleName themePath = true →
      styleUrlLoop h styleName (pre ++ themePath :: post) = h.resolved themePath styleName := by
  intro pre
  induction pre with
  | nil =>
    intro themePath post _ hhit
    unfold styleFound at hhit
    simp [styleUrlLoop, hhit]
  | cons q pre ih =>
    intro themePath post hpre hhit
    have hq := hpre q (List.mem_cons_self q pre)
    unfold styleFound at hq
    simp only [List.cons_append, styleUrlLoop, hq]
    exact ih themePath post (fun r hr => hpre r (List.mem_cons_of_mem q hr)) hhit

theorem styleUrlLoop_none (h : Host) (styleName : String) :
    ∀ (paths : List QUrl), (∀ q ∈ paths, styleFound h styleName q = false) →
      styleUrlLoop h styleName paths = QUrl.empty := by
  intro paths
  induction paths with
  | nil => intro _; rfl
  | cons q rest ih =>
    intro hall
    have hq := hall q (List.mem_cons_self q rest)
    unfold styleFound at hq
    simp only [styleUrlLoop, hq]
    exact ih (fun r hr => hall r (List.mem_cons_of_mem q hr))

theorem styleUrlLoop_valid (h : Host) (styleName : String) :
    ∀ (paths : List QUrl), (∃ q ∈ paths, styleFound h styleName q = true) →
      (styleUrlLoop h styleName paths).isValid = true := by
  intro paths
  induction paths with
  | nil => intro hex; obtain ⟨q, hq, _⟩ := hex; cases hq
  | cons p rest ih =>
    intro hex
    by_cases hp : styleFound h styleName p = true
    · have hp2 := hp
      unfold styleFound at hp2
      simp only [styleUrlLoop, hp2, if_true]
      simp only [Bool.and_eq_true] at hp2
      exact hp2.1
    · obtain ⟨q, hq, hqe⟩ := hex
      have hq2 : q ∈ rest := by
        rcases List.mem_cons.mp hq with heq | hmem
        · subst heq; exact absurd hqe hp
        · exact hmem
      have hp2 := hp
      unfold styleFound at hp2
      simp only [styleUrlLoop, hp2]
      exact ih ⟨q, hq2, hqe⟩

theorem styleUrlLoop_invalid_iff (h : Host) (styleName : String) (paths : List QUrl) :
    (styleUrlLoop h styleName paths).isValid = false ↔
      ∀ q ∈ paths, styleFound h styleName q = false := by
  constructor
  · intro hinv q hq
    cases hd : styleFound h styleName q with
    | false => rfl
    | true =>
      have hval := styleUrlLoop_valid h styleName paths ⟨q, hq, hd⟩
      rw [hinv] at hval
      cases hval
  · intro hall
    rw [styleUrlLoop_none h styleName paths hall]
    exact isValid_empty

/-! ## The loop of updateThemePaths -/

theorem parentThemeName_not_found (h : Host) (themeName : String)
    (hnf : (pathFromThemeName h themeName).isValid = false) :
    parentThemeName h themeName = "" := by
  simp [parentThemeName, hnf]

theorem updateThemePathsLoop_chain (h : Host) :
    ∀ (chain : List String) (themeName : String) (paths : List QUrl) (fuel : Nat),
      isThemeChain h themeName chain = true → chain.length ≤ fuel →
      updateThemePathsLoop h fuel themeName paths = some (paths ++ chainFolders h chain) := by
  intro chain
  induction chain with
  | nil =>
    intro themeName paths fuel hc _
    have he : themeName = "" := by simpa [isThemeChain] using hc
    cases fuel <;> simp [updateThemePathsLoop, he, chainFolders]
  | cons t rest ih =>
    intro themeName paths fuel hc hf
    simp only [isThemeChain, Bool.and_eq_true, decide_eq_true_eq] at hc
    obtain ⟨⟨hne, ht⟩, hrest⟩ := hc
    subst ht
    cases fuel with
    | zero => simp at hf
    | succ fuel =>
      have hf2 : rest.length ≤ fuel := by
        simp only [List.length_cons] at hf
        omega
      simp only [updateThemePathsLoop, hne, if_false]
      rw [ih (parentThemeName h t) _ fuel hrest hf2]
      cases hv : (pathFromThemeName h t).isValid <;>
        simp [chainFolders, List.filter, hv]

theorem isThemeChain_stops (h : Host) :
    ∀ (pre : List String) (themeName t : String) (post : List String),
      isThemeChain h themeName (pre ++ t :: post) = true →
      parentThemeName h t = "" → post = [] := by
  intro pre
  induction pre with
  | nil =>
    intro themeName t post hc hp
    simp only [List.nil_append, isThemeChain, Bool.and_eq_true, decide_eq_true_eq] at hc
    obtain ⟨⟨_, ht⟩, hrest⟩ := hc
    subst ht
    rw [hp] at hrest
    cases post with
    | nil => rfl
    | cons u post => simp [isThemeChain] at hrest
  | cons q pre ih =>
    intro themeName t post hc hp
    simp only [List.cons_append, isThemeChain, Bool.and_eq_true, decide_eq_true_eq] at hc
    exact ih _ t post hc.2 hp

theorem updateThemePathsLoop_mono (h : Host) :
    ∀ (fuel : Nat) (themeName : String) (paths result : List QUrl),
      updateThemePathsLoop h fuel themeName paths = some result →
      ∀ more, fuel ≤ more → updateThemePathsLoop h more themeName paths = some result := by
  intro fuel
  induction fuel with
  | zero =>
    intro themeName paths result hr more _
    by_cases he : themeName = ""
    · cases more <;> simpa [updateThemePathsLoop, he] using hr
    · simp [updateThemePathsLoop, he] at hr
  | succ fuel ih =>
    intro themeName paths result hr more hle
    cases more with
    | zero => omega
    | succ more =>
      by_cases he : themeName = ""
      · simpa [updateThemePathsLoop, he] using hr
      · simp only [updateThemePathsLoop, he, if_false] at hr ⊢
        exact ih _ _ _ hr more (by omega)

/-! ## What the methods leave alone -/

theorem sameTheme_refl (s : UCStyleSet) : SameTheme s s := ⟨rfl, rfl, rfl, rfl⟩

theorem sameTheme_trans {s s1 s2 : UCStyleSet} (h1 : SameTheme s s1) (h2 : SameTheme s1 s2) :
    SameTheme s s2 :=
  ⟨h2.1.trans h1.1, h2.2.1.trans h1.2.1, h2.2.2.1.trans h1.2.2.1, h2.2.2.2.trans h1.2.2.2⟩

theorem sameTheme_name_eq {s s1 : UCStyleSet} (hs : SameTheme s s1) : s1.name = s.name := by
  unfold UCStyleSet.name
  rw [hs.1, hs.2.1]

theorem themeCurrent_of_same (h : Host) {s s1 : UCStyleSet} (hs : SameTheme s s1)
    (hc : ThemeCurrent h s) : ThemeCurrent h s1 := by
  obtain ⟨hconn, fuel, hfuel⟩ := hc
  refine ⟨?_, fuel, ?_⟩
  · intro hn
    rw [hs.2.2.2]
    exact hconn (hs.1 ▸ hn)
  · rw [sameTheme_name_eq hs, hs.2.2.1]
    exact hfuel

theorem updateEnginePaths_sets (h : Host) (self : Nat) (w : World) :
    (updateEnginePaths h self w).sets = w.sets := by
  unfold updateEnginePaths
  split
  · rfl
  · split <;> rfl

theorem setSet_sets_self (w : World) (a : Nat) (s : UCStyleSet) :
    (w.setSet a s).sets a = some s := by
  simp [World.setSet]

theorem setSet_sets_other (w : World) (a b : Nat) (s : UCStyleSet) (hb : b ≠ a) :
    (w.setSet a s).sets b = w.sets b := by
  simp [World.setSet, hb]

theorem deleteObject_sets (w : World) (object : Nat) :
    (w.deleteObject object).sets = w.sets := rfl

theorem createQmlObject_sets (h : Host) (url : QUrl) (engine : Nat) (w : World) :
    (w.createQmlObject h url engine).2.sets = w.sets := by
  unfold World.createQmlObject
  split <;> rfl

/-- The shape of loadPalette: nothing happens, or the palette pointer and
the paletteChanged count of the style set are written. -/
theorem loadPalette_shape (h : Host) (notify : Bool) (self : Nat) (w : World)
    (s : UCStyleSet) (hs : w.sets self = some s) :
    loadPalette h notify self w = w ∨
    ∃ (w1 : World) (p : Option Nat) (c : Nat), w1.sets = w.sets ∧
      loadPalette h notify self w =
        w1.setSet self { s with m_palette := p, paletteChanged := c } := by
  unfold loadPalette
  rw [hs]
  simp only
  split
  · exact Or.inl rfl
  · rename_i engine _
    right
    have hw1 : ∀ w1 : World, w1.sets = w.sets →
        ∃ (w2 : World) (p : Option Nat) (c : Nat), w2.sets = w.sets ∧
          (if (UCStyleSet.styleUrl h s "Palette.qml").isValid = true then
            (w1.createQmlObject h (UCStyleSet.styleUrl h s "Palette.qml") engine).2.setSet self
              { s with
                m_palette :=
                  (w1.createQmlObject h (UCStyleSet.styleUrl h s "Palette.qml") engine).1,
                paletteChanged := if notify = true then s.paletteChanged + 1
                  else s.paletteChanged }
          else w1.setSet self { s with m_palette := w1.defaultPalette }) =
            w2.setSet self { s with m_palette := p, paletteChanged := c } := by
      intro w1 hw1
      by_cases hv : (UCStyleSet.styleUrl h s "Palette.qml").isValid = true
      · rw [if_pos hv]
        exact ⟨_, _, _, (createQmlObject_sets h _ engine w1).trans hw1, rfl⟩
      · rw [if_neg hv]
        exact ⟨w1, w1.defaultPalette, s.paletteChanged, hw1, rfl⟩
    have hsets : (match w.data s.m_palette with
        | some object => w.deleteObject object
        | none => w).sets = w.sets := by
      split <;> rfl
    exact hw1 _ hsets

theorem loadPalette_sets_other (h : Host) (notify : Bool) (self : Nat) (w : World) (a : Nat)
    (ha : a ≠ self) : (loadPalette h notify self w).sets a = w.sets a := by
  cases hs : w.sets self with
  | none => simp [loadPalette, hs]
  | some s =>
    rcases loadPalette_shape h notify self w s hs with heq | ⟨w1, p, c, hw1, heq⟩
    · rw [heq]
    · rw [heq, setSet_sets_other _ _ _ _ ha, hw1]

theorem loadPalette_sets_self (h : Host) (notify : Bool) (self : Nat) (w : World)
    (s : UCStyleSet) (hs : w.sets self = some s) :
    ∃ s1, (loadPalette h notify self w).sets self = some s1 ∧
      s1 = { s with m_palette := s1.m_palette, paletteChanged := s1.paletteChanged } := by
  rcases loadPalette_shape h notify self w s hs with heq | ⟨w1, p, c, _, heq⟩
  · exact ⟨s, by rw [heq, hs], rfl⟩
  · exact ⟨_, by rw [heq, setSet_sets_self], rfl⟩

/-! ## What the methods do to the theme members -/

theorem updateThemePaths_some (h : Host) (fuel : Nat) (s s1 : UCStyleSet)
    (hu : s.updateThemePaths h fuel = some s1) :
    s1 = { s with m_themePaths := s1.m_themePaths } ∧
      updateThemePathsLoop h fuel s.name [] = some s1.m_themePaths := by
  unfold UCStyleSet.updateThemePaths at hu
  cases hl : updateThemePathsLoop h fuel s.name [] with
  | none => rw [hl] at hu; cases hu
  | some paths =>
    rw [hl] at hu
    simp only [Option.some.injEq] at hu
    subst hu
    exact ⟨rfl, rfl⟩

theorem updateThemePaths_current (h : Host) (fuel : Nat) (s s1 : UCStyleSet)
    (hu : s.updateThemePaths h fuel = some s1) :
    s1.name = s.name ∧ updateThemePathsLoop h fuel s1.name [] = some s1.m_themePaths := by
  obtain ⟨hs1, hl⟩ := updateThemePaths_some h fuel s s1 hu
  have hn : s1.name = s.name := by
    rw [hs1]
    rfl
  exact ⟨hn, hn ▸ hl⟩

theorem init_some (h : Host) (fuel : Nat) (s s1 : UCStyleSet) (hi : s.init h fuel = some s1) :
    s1 = { s with m_completed := false, connections := s.connections + 1,
                  m_themePaths := s1.m_themePaths } ∧
      updateThemePathsLoop h fuel s.name [] = some s1.m_themePaths := by
  unfold UCStyleSet.init at hi
  obtain ⟨hs1, hl⟩ := updateThemePaths_some h fuel _ s1 hi
  exact ⟨hs1, hl⟩

theorem onThemeNameChanged_some (h : Host) (fuel : Nat) (s s1 : UCStyleSet)
    (ho : s.onThemeNameChanged h fuel = some s1) :
    s1 = { s with m_themePaths := s1.m_themePaths, nameChanged := s.nameChanged + 1 } ∧
      updateThemePathsLoop h fuel s.name [] = some s1.m_themePaths := by
  unfold UCStyleSet.onThemeNameChanged at ho
  cases hu : s.updateThemePaths h fuel with
  | none => rw [hu] at ho; cases ho
  | some s2 =>
    rw [hu] at ho
    simp only [Option.some.injEq] at ho
    obtain ⟨hs2, hl⟩ := updateThemePaths_some h fuel s s2 hu
    subst ho
    refine ⟨?_, hl⟩
    rw [hs2]

theorem emitThemeNameChanged_some (h : Host) (fuel : Nat) :
    ∀ (n : Nat) (s s1 : UCStyleSet), emitThemeNameChanged h fuel n s = some s1 →
      s1.m_name = s.m_name ∧ s1.m_themeSettings = s.m_themeSettings ∧
      s1.connections = s.connections ∧
      (1 ≤ n → updateThemePathsLoop h fuel s.name [] = some s1.m_themePaths) ∧
      (n = 0 → s1 = s) := by
  intro n
  induction n with
  | zero =>
    intro s s1 he
    simp only [emitThemeNameChanged, Option.some.injEq] at he
    subst he
    exact ⟨rfl, rfl, rfl, fun hn => absurd hn (by decide), fun _ => rfl⟩
  | succ n ih =>
    intro s s1 he
    simp only [emitThemeNameChanged] at he
    cases ho : s.onThemeNameChanged h fuel with
    | none => rw [ho] at he; cases he
    | some s2 =>
      rw [ho] at he
      obtain ⟨hs2, hl⟩ := onThemeNameChanged_some h fuel s s2 ho
      obtain ⟨h1, h2, h3, h4, h5⟩ := ih s2 s1 he
      have hm : s2.m_name = s.m_name := by rw [hs2]
      have ht : s2.m_themeSettings = s.m_themeSettings := by rw [hs2]
      have hc : s2.connections = s.connections := by rw [hs2]
      have hn : s2.name = s.name := by
        unfold UCStyleSet.name
        rw [hm, ht]
      refine ⟨h1.trans hm, h2.trans ht, h3.trans hc, ?_, fun hz => absurd hz (Nat.succ_ne_zero n)⟩
      intro _
      cases n with
      | zero =>
        rw [h5 rfl]
        exact hl
      | succ n =>
        rw [← hn]
        exact h4 (Nat.succ_le_succ (Nat.zero_le n))

theorem setName_same (h : Host) (fuel self : Nat) (name : String) (w : World) (s : UCStyleSet)
    (hs : w.sets self = some s) (hn : name = s.m_name) :
    setName h fuel self name w = some w := by
  unfold setName
  rw [hs]
  simp [hn]

theorem setName_diverges (h : Host) (fuel self : Nat) (name : String) (w : World)
    (s : UCStyleSet) (hs : w.sets self = some s) (hn : name ≠ s.m_name)
    (hu : setNameUpdated h fuel s name = none) :
    setName h fuel self name w = none := by
  unfold setName
  unfold setNameUpdated at hu
  rw [hs]
  simp only [hn, if_false]
  rw [hu]

theorem setName_changed (h : Host) (fuel self : Nat) (name : String) (w : World)
    (s s2 : UCStyleSet) (hs : w.sets self = some s) (hn : name ≠ s.m_name)
    (hu : setNameUpdated h fuel s name = some s2) :
    ∃ (w1 : World) (s3 : UCStyleSet), setName h fuel self name w = some w1 ∧
      w1.sets self = some s3 ∧
      s3 = { s2 with m_palette := s3.m_palette, paletteChanged := s3.paletteChanged,
                     nameChanged := s2.nameChanged + 1 } ∧
      ∀ a, a ≠ self → w1.sets a = w.sets a := by
  have hs2 : (updateEnginePaths h self (w.setSet self s2)).sets self = some s2 := by
    rw [updateEnginePaths_sets, setSet_sets_self]
  obtain ⟨s3, hs3, hs3eq⟩ := loadPalette_sets_self h true self _ s2 hs2
  refine ⟨(loadPalette h true self (updateEnginePaths h self (w.setSet self s2))).setSet self
      { s3 with nameChanged := s3.nameChanged + 1 },
    { s3 with nameChanged := s3.nameChanged + 1 }, ?_, setSet_sets_self _ _ _, ?_, ?_⟩
  · unfold setName
    unfold setNameUpdated at hu
    rw [hs]
    simp only [hn, if_false]
    rw [hu]
    simp only
    rw [hs3]
  · rw [hs3eq]
  · intro a ha
    rw [setSet_sets_other _ _ _ _ ha, loadPalette_sets_other _ _ _ _ _ ha,
      updateEnginePaths_sets, setSet_sets_other _ _ _ _ ha]

/-! ## Reachable worlds keep the theme paths up to date -/

theorem frame_refl (w : World) : Frame w w :=
  fun _ s1 hs1 => ⟨s1, hs1, sameTheme_refl s1⟩

theorem frame_trans {w w1 w2 : World} (h1 : Frame w w1) (h2 : Frame w1 w2) : Frame w w2 := by
  intro a s2 hs2
  obtain ⟨s1, hs1, hsame2⟩ := h2 a s2 hs2
  obtain ⟨s, hs, hsame1⟩ := h1 a s1 hs1
  exact ⟨s, hs, sameTheme_trans hsame1 hsame2⟩

theorem frame_of_sets_eq {w w1 : World} (he : w1.sets = w.sets) : Frame w w1 := by
  intro a s1 hs1
  rw [he] at hs1
  exact ⟨s1, hs1, sameTheme_refl s1⟩

theorem frame_setSet (w : World) (self : Nat) (s s1 : UCStyleSet) (hs : w.sets self = some s)
    (hsame : SameTheme s s1) : Frame w (w.setSet self s1) := by
  intro a s2 hs2
  by_cases ha : a = self
  · subst ha
    rw [setSet_sets_self] at hs2
    simp only [Option.some.injEq] at hs2
    subst hs2
    exact ⟨s, hs, hsame⟩
  · rw [setSet_sets_other _ _ _ _ ha] at hs2
    exact ⟨s2, hs2, sameTheme_refl s2⟩

theorem frame_current (h : Host) {w w1 : World} (hf : Frame w w1) (hc : WorldCurrent h w) :
    WorldCurrent h w1 := by
  intro a s1 hs1
  obtain ⟨s, hs, hsame⟩ := hf a s1 hs1
  exact themeCurrent_of_same h hsame (hc a s hs)

theorem updateEnginePaths_frame (h : Host) (self : Nat) (w : World) :
    Frame w (updateEnginePaths h self w) :=
  frame_of_sets_eq (updateEnginePaths_sets h self w)

theorem loadPalette_frame (h : Host) (notify : Bool) (self : Nat) (w : World) :
    Frame w (loadPalette h notify self w) := by
  intro a s1 hs1
  by_cases ha : a = self
  · subst ha
    cases hs : w.sets a with
    | none =>
      have hw : loadPalette h notify a w = w := by simp [loadPalette, hs]
      rw [hw, hs] at hs1
      cases hs1
    | some s =>
      obtain ⟨s2, hs2, hs2eq⟩ := loadPalette_sets_self h notify a w s hs
      rw [hs2] at hs1
      simp only [Option.some.injEq] at hs1
      subst hs1
      refine ⟨s, rfl, ?_⟩
      rw [hs2eq]
      exact ⟨rfl, rfl, rfl, rfl⟩
  · rw [loadPalette_sets_other _ _ _ _ _ ha] at hs1
    exact ⟨s1, hs1, sameTheme_refl s1⟩

theorem classBegin_frame (h : Host) (self : Nat) (w : World) : Frame w (classBegin h self w) := by
  unfold classBegin
  cases hs : w.sets self with
  | none => exact frame_refl w
  | some s =>
    exact frame_trans (frame_setSet w self s { s with m_engine := h.qmlEngine self } hs
      ⟨rfl, rfl, rfl, rfl⟩) (updateEnginePaths_frame h self _)

theorem componentComplete_frame (self : Nat) (w : World) :
    Frame w (componentComplete self w) := by
  unfold componentComplete
  cases hs : w.sets self with
  | none => exact frame_refl w
  | some s => exact frame_setSet w self s { s with m_completed := true } hs ⟨rfl, rfl, rfl, rfl⟩

theorem registerToContext_frame (h : Host) (engine : Option Nat) (w : World) :
    Frame w (registerToContext h engine w) := by
  unfold registerToContext
  cases hs : w.sets defaultSet with
  | none => exact frame_refl w
  | some s =>
    exact frame_trans (frame_setSet w defaultSet s { s with m_engine := engine } hs
      ⟨rfl, rfl, rfl, rfl⟩) (updateEnginePaths_frame h defaultSet _)

theorem palette_frame (h : Host) (self : Nat) (w : World) : Frame w (palette h self w).2 := by
  unfold palette
  cases hs : w.sets self with
  | none => exact frame_refl w
  | some s =>
    have hw1 : Frame w (if (w.data s.m_palette).isNone then loadPalette h false self w else w) := by
      split
      · exact loadPalette_frame h false self w
      · exact frame_refl w
    simp only
    split <;> exact hw1

/-- The objects after createStyleComponent: only the engine of the style
set may have been set, and its import paths extended. -/
theorem createStyleComponent_world (h : Host) (self : Nat) (styleName : String) (p : Nat)
    (w : World) (s : UCStyleSet) (hs : w.sets self = some s) :
    (createStyleComponent h self styleName (some p) w).2 =
      if h.qmlEngine p ≠ s.m_engine ∧ s.m_engine = none then
        updateEnginePaths h self (w.setSet self { s with m_engine := h.qmlEngine p })
      else w := by
  unfold createStyleComponent
  rw [hs]
  simp only
  generalize (if h.qmlEngine p ≠ s.m_engine ∧ s.m_engine = none then
        updateEnginePaths h self (w.setSet self { s with m_engine := h.qmlEngine p })
      else w) = w1
  cases h.qmlEngine p with
  | none => rfl
  | some e =>
    simp only
    by_cases hv : (UCStyleSet.styleUrl h s styleName).isValid = true
    · rw [if_pos hv]
      by_cases he : h.componentIsError e (w1.importPathList e) (UCStyleSet.styleUrl h s styleName) = true
      · rw [if_pos he]
      · rw [if_neg he]
    · rw [if_neg hv]

theorem createStyleComponent_frame (h : Host) (self : Nat) (styleName : String)
    (parent : Option Nat) (w : World) :
    Frame w (createStyleComponent h self styleName parent w).2 := by
  cases hs : w.sets self with
  | none =>
    have hw : (createStyleComponent h self styleName parent w).2 = w := by
      simp [createStyleComponent, hs]
    rw [hw]
    exact frame_refl w
  | some s =>
    cases parent with
    | none =>
      have hw : (createStyleComponent h self styleName none w).2 = w := by
        simp [createStyleComponent, hs]
      rw [hw]
      exact frame_refl w
    | some p =>
      rw [createStyleComponent_world h self styleName p w s hs]
      split
      · exact frame_trans (frame_setSet w self s { s with m_engine := h.qmlEngine p } hs
          ⟨rfl, rfl, rfl, rfl⟩) (updateEnginePaths_frame h self _)
      · exact frame_refl w

theorem init_current (h : Host) (fuel : Nat) (s s1 : UCStyleSet)
    (hi : s.init h fuel = some s1) : ThemeCurrent h s1 := by
  obtain ⟨hs1, hl⟩ := init_some h fuel s s1 hi
  have hn : s1.name = s.name := by
    rw [hs1]
    rfl
  have hc : s1.connections = s.connections + 1 := by rw [hs1]
  refine ⟨fun _ => ?_, fuel, ?_⟩
  · rw [hc]
    exact Nat.le_add_left 1 s.connections
  · rw [hn]
    exact hl

theorem updateThemePaths_named_current (h : Host) (fuel : Nat) (s s1 : UCStyleSet)
    (hne : s.m_name ≠ "") (hu : s.updateThemePaths h fuel = some s1) : ThemeCurrent h s1 := by
  obtain ⟨hs1, _⟩ := updateThemePaths_some h fuel s s1 hu
  obtain ⟨_, hl⟩ := updateThemePaths_current h fuel s s1 hu
  have hm : s1.m_name = s.m_name := by rw [hs1]
  exact ⟨fun he => absurd (hm ▸ he) hne, fuel, hl⟩

theorem setNameUpdated_current (h : Host) (fuel : Nat) (s s2 : UCStyleSet) (name : String)
    (hu : setNameUpdated h fuel s name = some s2) : ThemeCurrent h s2 := by
  unfold setNameUpdated at hu
  by_cases hn : name = ""
  · rw [if_pos hn] at hu
    exact init_current h fuel _ s2 hu
  · rw [if_neg hn] at hu
    exact updateThemePaths_named_current h fuel _ s2 hn hu

theorem setName_current (h : Host) (fuel self : Nat) (name : String) (w w1 : World)
    (hc : WorldCurrent h w) (hs : setName h fuel self name w = some w1) :
    WorldCurrent h w1 := by
  cases hself : w.sets self with
  | none =>
    have hw : setName h fuel self name w = some w := by simp [setName, hself]
    rw [hw] at hs
    simp only [Option.some.injEq] at hs
    exact hs ▸ hc
  | some s =>
    by_cases hn : name = s.m_name
    · rw [setName_same h fuel self name w s hself hn] at hs
      simp only [Option.some.injEq] at hs
      exact hs ▸ hc
    · cases hu : setNameUpdated h fuel s name with
      | none =>
        rw [setName_diverges h fuel self name w s hself hn hu] at hs
        cases hs
      | some s2 =>
        obtain ⟨w2, s3, hw2, hs3, hs3eq, hother⟩ :=
          setName_changed h fuel self name w s s2 hself hn hu
        rw [hw2] at hs
        simp only [Option.some.injEq] at hs
        subst hs
        intro a sa hsa
        by_cases ha : a = self
        · subst ha
          rw [hs3] at hsa
          simp only [Option.some.injEq] at hsa
          subst hsa
          have hsame : SameTheme s2 s3 := by
            rw [hs3eq]
            exact ⟨rfl, rfl, rfl, rfl⟩
          exact themeCurrent_of_same h hsame (setNameUpdated_current h fuel s s2 name hu)
        · rw [hother a ha] at hsa
          exact hc a sa hsa

theorem themeNameChanged_current (h : Host) (fuel self : Nat) (themeName : String)
    (w w1 : World) (hc : WorldCurrent h w)
    (hs : themeNameChanged h fuel self themeName w = some w1) : WorldCurrent h w1 := by
  unfold themeNameChanged at hs
  cases hself : w.sets self with
  | none =>
    rw [hself] at hs
    simp only [Option.some.injEq] at hs
    exact hs ▸ hc
  | some s =>
    rw [hself] at hs
    simp only at hs
    cases he : emitThemeNameChanged h fuel s.connections { s with m_themeSettings := themeName } with
    | none => rw [he] at hs; cases hs
    | some s1 =>
      rw [he] at hs
      simp only [Option.some.injEq] at hs
      subst hs
      obtain ⟨hm, ht, hcn, hpos, hzero⟩ := emitThemeNameChanged_some h fuel _ _ s1 he
      obtain ⟨hconn, f0, hf0⟩ := hc self s hself
      have hname : s1.name = UCStyleSet.name { s with m_themeSettings := themeName } := by
        unfold UCStyleSet.name
        rw [hm, ht]
      intro a sa hsa
      by_cases ha : a = self
      · subst ha
        rw [setSet_sets_self] at hsa
        simp only [Option.some.injEq] at hsa
        subst hsa
        refine ⟨fun hn => ?_, ?_⟩
        · rw [hcn]
          exact hconn (hm ▸ hn)
        · by_cases hz : s.connections = 0
          · have hs1 : s1 = { s with m_themeSettings := themeName } := hzero hz
            have hne : s.m_name ≠ "" := by
              intro hempty
              have := hconn hempty
              omega
            refine ⟨f0, ?_⟩
            rw [hs1]
            have hn2 : UCStyleSet.name { s with m_themeSettings := themeName } = s.name := by
              simp [UCStyleSet.name, hne]
            rw [hn2]
            exact hf0
          · refine ⟨fuel, ?_⟩
            rw [hname]
            exact hpos (by omega)
      · rw [setSet_sets_other _ _ _ _ ha] at hsa
        exact hc a sa hsa

theorem construct_current (h : Host) (fuel self : Nat) (parent : Option Nat)
    (themeName : String) (w w1 : World) (hc : WorldCurrent h w)
    (hs : construct h fuel self parent themeName w = some w1) : WorldCurrent h w1 := by
  unfold construct at hs
  simp only at hs
  split at hs
  · rename_i s1 hi
    simp only [Option.some.injEq] at hs
    subst hs
    intro a sa hsa
    by_cases ha : a = self
    · subst ha
      rw [setSet_sets_self] at hsa
      simp only [Option.some.injEq] at hsa
      subst hsa
      exact init_current h fuel _ _ hi
    · rw [setSet_sets_other _ _ _ _ ha] at hsa
      exact hc a sa hsa
  · cases hs

theorem constructDefault_current (h : Host) (fuel self : Nat) (defaultStyle : Bool)
    (themeName : String) (w w1 : World) (hc : WorldCurrent h w)
    (hs : constructDefault h fuel self defaultStyle themeName w = some w1) :
    WorldCurrent h w1 := by
  unfold constructDefault at hs
  simp only at hs
  split at hs
  · rename_i s1 hi
    simp only [Option.some.injEq] at hs
    subst hs
    intro a sa hsa
    by_cases ha : a = self
    · subst ha
      rw [setSet_sets_self] at hsa
      simp only [Option.some.injEq] at hsa
      subst hsa
      exact init_current h fuel _ _ hi
    · rw [setSet_sets_other _ _ _ _ ha] at hsa
      exact hc a sa hsa
  · cases hs

theorem initial_current (h : Host) : WorldCurrent h World.initial := by
  intro a s hs
  cases hs

/-- In every reachable world the theme paths of every style set are those
updateThemePaths computes for its name(). -/
theorem reachable_current (h : Host) (w : World) (hr : Reachable h w) : WorldCurrent h w := by
  induction hr with
  | start fuel themeName w hw =>
    exact constructDefault_current h fuel defaultSet true themeName _ w (initial_current h) hw
  | construct w fuel self parent themeName w1 _ _ _ hw ih =>
    exact construct_current h fuel self parent themeName w w1 ih hw
  | setName w fuel self name w1 _ hw ih =>
    exact setName_current h fuel self name w w1 ih hw
  | themeNameChanged w fuel self themeName w1 _ hw ih =>
    exact themeNameChanged_current h fuel self themeName w w1 ih hw
  | classBegin w self _ ih => exact frame_current h (classBegin_frame h self w) ih
  | componentComplete w self _ ih => exact frame_current h (componentComplete_frame self w) ih
  | registerToContext w engine _ ih => exact frame_current h (registerToContext_frame h engine w) ih
  | palette w self _ ih => exact frame_current h (palette_frame h self w) ih
  | createStyleComponent w self styleName parent _ ih =>
    exact frame_current h (createStyleComponent_frame h self styleName parent w) ih

/-! ## Theme paths and chains -/

theorem updateThemePaths_of_chain (h : Host) (s : UCStyleSet) (chain : List String)
    (fuel : Nat) (hchain : isThemeChain h s.name chain = true) (hfuel : chain.length ≤ fuel) :
    s.updateThemePaths h fuel = some { s with m_themePaths := chainFolders h chain } := by
  unfold UCStyleSet.updateThemePaths
  rw [updateThemePathsLoop_chain h chain s.name [] fuel hchain hfuel]
  simp

theorem current_paths_of_chain (h : Host) (s : UCStyleSet) (chain : List String)
    (hc : ThemeCurrent h s) (hchain : isThemeChain h s.name chain = true) :
    s.m_themePaths = chainFolders h chain := by
  obtain ⟨_, f0, hf0⟩ := hc
  have h1 := updateThemePathsLoop_mono h f0 s.name [] _ hf0 (max f0 chain.length)
    (Nat.le_max_left _ _)
  have h2 := updateThemePathsLoop_chain h chain s.name [] (max f0 chain.length) hchain
    (Nat.le_max_right _ _)
  rw [h1] at h2
  simp only [Option.some.injEq, List.nil_append] at h2
  exact h2

theorem name_of_empty (s : UCStyleSet) (hn : s.m_name = "") : s.name = s.m_themeSettings := by
  simp [UCStyleSet.name, hn]

theorem name_of_named (s : UCStyleSet) (hn : s.m_name ≠ "") : s.name = s.m_name := by
  simp [UCStyleSet.name, hn]

/-- What setName does for a name whose parent chain is finite: the style
set gets the name and the folders of the chain. -/
theorem setName_of_chain (h : Host) (fuel self : Nat) (name : String) (w : World)
    (s : UCStyleSet) (chain : List String) (hr : WorldCurrent h w)
    (hs : w.sets self = some s)
    (hchain : isThemeChain h (if name ≠ "" then name else s.m_themeSettings) chain = true)
    (hfuel : chain.length ≤ fuel) :
    ∃ (w1 : World) (s1 : UCStyleSet), setName h fuel self name w = some w1 ∧
      w1.sets self = some s1 ∧ s1.m_name = name ∧ s1.m_themeSettings = s.m_themeSettings ∧
      s1.m_themePaths = chainFolders h chain ∧
      (name ≠ s.m_name → s1.nameChanged = s.nameChanged + 1) := by
  by_cases hn : name = s.m_name
  · refine ⟨w, s, setName_same h fuel self name w s hs hn, hs, hn.symm, rfl, ?_,
      fun hne => absurd hn hne⟩
    apply current_paths_of_chain h s chain (hr self s hs)
    have hname : s.name = if name ≠ "" then name else s.m_themeSettings := by
      unfold UCStyleSet.name
      rw [hn]
    rw [hname]
    exact hchain
  · have hu : ∃ s2, setNameUpdated h fuel s name = some s2 ∧ s2.m_name = name ∧
        s2.m_themeSettings = s.m_themeSettings ∧ s2.m_themePaths = chainFolders h chain ∧
        s2.nameChanged = s.nameChanged := by
      unfold setNameUpdated
      by_cases he : name = ""
      · rw [if_pos he]
        unfold UCStyleSet.init
        refine ⟨_, updateThemePaths_of_chain h _ chain fuel ?_ hfuel, rfl, rfl, rfl, rfl⟩
        simpa [UCStyleSet.name, he] using hchain
      · rw [if_neg he]
        refine ⟨_, updateThemePaths_of_chain h _ chain fuel ?_ hfuel, rfl, rfl, rfl, rfl⟩
        simpa [UCStyleSet.name, he] using hchain
    obtain ⟨s2, hs2, hm, ht, hp, hc⟩ := hu
    obtain ⟨w1, s3, hw1, hs3, hs3eq, _⟩ := setName_changed h fuel self name w s s2 hs hn hs2
    refine ⟨w1, s3, hw1, hs3, ?_, ?_, ?_, fun _ => ?_⟩
    · rw [hs3eq]; exact hm
    · rw [hs3eq]; exact ht
    · rw [hs3eq]; exact hp
    · rw [hs3eq]; simp only; rw [hc]

/-! ## Claims on the theme cascade -/

/-- C1: styleUrl cascades child-first. The style name is resolved against the
first theme path, in `m_themePaths` order, whose resolved URL is valid and
whose file exists, so a file of an earlier (child) theme shadows the same
file of any later (parent) theme; the result is invalid exactly when no
theme path has the file, and it is then the empty URL. -/
theorem styleUrl_cascades_child_first (h : Host) (s : UCStyleSet) (styleName : String) :
    (∀ (pre : List QUrl) (themePath : QUrl) (post : List QUrl),
        s.m_themePaths = pre ++ themePath :: post →
        (∀ q ∈ pre, ((h.resolved q styleName).isValid &&
            h.fileExists (h.resolved q styleName).toLocalFile) = false) →
        (h.resolved themePath styleName).isValid = true →
        h.fileExists (h.resolved themePath styleName).toLocalFile = true →
        s.styleUrl h styleName = h.resolved themePath styleName) ∧
    ((s.styleUrl h styleName).isValid = false ↔
      ∀ q ∈ s.m_themePaths, ((h.resolved q styleName).isValid &&
          h.fileExists (h.resolved q styleName).toLocalFile) = false) ∧
    ((s.styleUrl h styleName).isValid = false → s.styleUrl h styleName = QUrl.empty) := by
  refine ⟨?_, ?_, ?_⟩
  · intro pre themePath post hsplit hpre hvalid hexists
    unfold UCStyleSet.styleUrl
    rw [hsplit]
    apply styleUrlLoop_first h styleName pre themePath post hpre
    simp [styleFound, hvalid, hexists]
  · exact styleUrlLoop_invalid_iff h styleName s.m_themePaths
  · intro hinv
    exact styleUrlLoop_none h styleName s.m_themePaths
      ((styleUrlLoop_invalid_iff h styleName s.m_themePaths).mp hinv)

/-- C9: pathFromThemeName replaces every dot of the theme name by a slash and
returns the `file` URL of the absolute folder, with its trailing slash, of the
first search path, in themeSearchPath order, under which that folder exists;
the result is invalid exactly when the folder exists under no search path, and
it is then the empty URL. -/
theorem pathFromThemeName_first_matching_folder (h : Host) (themeName : String) :
    (replaceChar themeName '.' '/').data =
        themeName.data.map (fun c => if c = '.' then '/' else c) ∧
    '.' ∉ (replaceChar themeName '.' '/').data ∧
    (∀ (pre : List String) (path : String) (post : List String),
        themeSearchPath h = pre ++ path :: post →
        (∀ q ∈ pre, h.dirExists
            (h.absolutePath (q ++ "/" ++ replaceChar themeName '.' '/' ++ "/") ++ "/") = false) →
        h.dirExists
            (h.absolutePath (path ++ "/" ++ replaceChar themeName '.' '/' ++ "/") ++ "/") = true →
        pathFromThemeName h themeName =
            ⟨"file", h.absolutePath (path ++ "/" ++ replaceChar themeName '.' '/' ++ "/") ++ "/",
              false⟩ ∧
        (pathFromThemeName h themeName).isValid = true ∧
        (pathFromThemeName h themeName).toLocalFile.data.getLast? = some '/') ∧
    ((pathFromThemeName h themeName).isValid = false ↔
      ∀ q ∈ themeSearchPath h, h.dirExists
          (h.absolutePath (q ++ "/" ++ replaceChar themeName '.' '/' ++ "/") ++ "/") = false) ∧
    ((pathFromThemeName h themeName).isValid = false →
      pathFromThemeName h themeName = QUrl.empty) := by
  refine ⟨rfl, replaceChar_no_before themeName '.' '/' (by decide), ?_, ?_, ?_⟩
  · intro pre path post hsplit hpre hhit
    have heq : pathFromThemeName h themeName =
        QUrl.fromLocalFile (absoluteThemeFolder h path (replaceChar themeName '.' '/')) := by
      unfold pathFromThemeName
      rw [hsplit]
      exact pathFromThemeNameLoop_first h _ pre path post hpre hhit
    have hne := absoluteThemeFolder_ne_empty h path (replaceChar themeName '.' '/')
    refine ⟨?_, ?_, ?_⟩
    · rw [heq, fromLocalFile_eq _ hne]
      rfl
    · rw [heq]
      exact isValid_fromLocalFile _ hne
    · rw [heq, fromLocalFile_eq _ hne]
      simp [QUrl.toLocalFile, absoluteThemeFolder, String.data_append]
  · exact pathFromThemeNameLoop_invalid_iff h _ (themeSearchPath h)
  · intro hinv
    exact pathFromThemeNameLoop_none h _ (themeSearchPath h)
      ((pathFromThemeNameLoop_invalid_iff h _ (themeSearchPath h)).mp hinv)

/-- C2: updateThemePaths rebuilds `m_themePaths` from scratch as the theme
chain of name(). For a finite parent chain of name() the new list holds
exactly the folders of the themes of the chain that pathFromThemeName finds,
in chain order, whatever the list held before, and every other member is kept;
a theme of the chain that is not found, or that has no parent theme, is the
last one of the chain. -/
theorem updateThemePaths_rebuilds_theme_chain (h : Host) (s : UCStyleSet)
    (chain : List String) (fuel : Nat)
    (hchain : isThemeChain h s.name chain = true) (hfuel : chain.length ≤ fuel) :
    s.updateThemePaths h fuel =
        some { s with m_themePaths := (chain.map (pathFromThemeName h)).filter QUrl.isValid } ∧
    (∀ (pre : List String) (t : String) (post : List String), chain = pre ++ t :: post →
        ((pathFromThemeName h t).isValid = false ∨ parentThemeName h t = "") → post = []) := by
  constructor
  · exact updateThemePaths_of_chain h s chain fuel hchain hfuel
  · intro pre t post hsplit hstop
    rw [hsplit] at hchain
    apply isThemeChain_stops h pre s.name t post hchain
    rcases hstop with hnf | hnp
    · exact parentThemeName_not_found h t hnf
    · exact hnp

/-! ## Claims on the name -/

/-- C3: resetting the name restores the system theme. In a reachable world,
for a style set whose system theme has a finite parent chain, resetName(),
which is setName of the empty string, returns and leaves name() equal to the
theme name the theme settings report and the theme paths equal to the folders
of that theme's chain; and setName of a non-empty name with a finite chain
leaves name() equal to that name (a non-empty `m_name` is what name() returns). -/
theorem resetName_restores_system_theme (h : Host) (w : World) (self : Nat) (s : UCStyleSet)
    (chain : List String) (fuel : Nat)
    (hr : Reachable h w) (hs : w.sets self = some s)
    (hchain : isThemeChain h s.m_themeSettings chain = true) (hfuel : chain.length ≤ fuel) :
    (∃ (w1 : World) (s1 : UCStyleSet), resetName h fuel self w = some w1 ∧
        setName h fuel self "" w = some w1 ∧ w1.sets self = some s1 ∧
        s1.m_themeSettings = s.m_themeSettings ∧ s1.name = s1.m_themeSettings ∧
        s1.m_themePaths = (chain.map (pathFromThemeName h)).filter QUrl.isValid) ∧
    (∀ (name : String) (nameChain : List String), name ≠ "" →
        isThemeChain h name nameChain = true → nameChain.length ≤ fuel →
        ∃ (w1 : World) (s1 : UCStyleSet), setName h fuel self name w = some w1 ∧
          w1.sets self = some s1 ∧ s1.name = name) ∧
    (s.m_name ≠ "" → s.name = s.m_name) := by
  have hcur := reachable_current h w hr
  refine ⟨?_, ?_, name_of_named s⟩
  · obtain ⟨w1, s1, hw1, hs1, hm, ht, hp, _⟩ :=
      setName_of_chain h fuel self "" w s chain hcur hs (by simpa using hchain) hfuel
    refine ⟨w1, s1, hw1, hw1, hs1, ht, name_of_empty s1 hm, hp⟩
  · intro name nameChain hne hnc hnf
    obtain ⟨w1, s1, hw1, hs1, hm, _, _, _⟩ :=
      setName_of_chain h fuel self name w s nameChain hcur hs (by simpa [hne] using hnc) hnf
    refine ⟨w1, s1, hw1, hs1, ?_⟩
    rw [name_of_named s1 (hm ▸ hne)]
    exact hm

theorem demoStart_reachable : Reachable demoHost demoStart :=
  Reachable.start 2 "Themes.Dark" demoStart rfl

theorem demoChildCompleted_reachable : Reachable demoHost demoChildCompleted :=
  Reachable.componentComplete demoChildNamed 5
    (Reachable.setName demoChild 2 5 "Themes.Plain" demoChildNamed
      (Reachable.construct demoStart 2 5 (some 9) "Themes.Dark" demoChild
        demoStart_reachable (by decide) rfl rfl) rfl)

theorem demoStyled_reachable : Reachable demoHost demoStyled :=
  Reachable.construct demoPaletteLoaded 2 5 (some 9) "Themes.Dark" demoStyled
    (Reachable.palette demoRegistered defaultSet
      (Reachable.registerToContext demoStart (some 100) demoStart_reachable))
    (by decide) rfl rfl

/-- Witness of C2 on the demo machine: a style set named `Themes.Dark` with
a stale theme path gets the folders of `Themes.Dark` and of its parent. -/
theorem updateThemePaths_rebuilds_theme_chain_witness :
    isThemeChain demoHost staleSet.name ["Themes.Dark", "Themes.Light"] = true ∧
    staleSet.m_themePaths = [⟨"file", "/gone/", false⟩] ∧
    staleSet.updateThemePaths demoHost 2 =
      some { staleSet with m_themePaths := [darkFolder, lightFolder] } :=
  ⟨by decide, rfl,
    (updateThemePaths_rebuilds_theme_chain demoHost staleSet ["Themes.Dark", "Themes.Light"] 2
      (by decide) (by decide)).1⟩

/-- Witness of C3 on the demo machine: the style set at `5`, named
`Themes.Plain`, is reset while the system theme is `Themes.Dark`. -/
theorem resetName_restores_system_theme_witness :
    Reachable demoHost demoChildCompleted ∧
    demoChildCompleted.sets 5 = some completedSet ∧
    ∃ (w1 : World) (s1 : UCStyleSet), resetName demoHost 2 5 demoChildCompleted = some w1 ∧
      w1.sets 5 = some s1 ∧ s1.name = "Themes.Dark" ∧
      s1.m_themePaths = [darkFolder, lightFolder] := by
  refine ⟨demoChildCompleted_reachable, rfl, ?_⟩
  obtain ⟨w1, s1, hw1, _, hs1, ht, hn, hp⟩ :=
    (resetName_restores_system_theme demoHost demoChildCompleted 5 completedSet
      ["Themes.Dark", "Themes.Light"] 2 demoChildCompleted_reachable rfl
      (by decide) (by decide)).1
  exact ⟨w1, s1, hw1, hs1, hn.trans ht, hp⟩

/-- C4, on the code: setName does not look at `m_completed`. On the demo
machine the style set at `5` was named `Themes.Plain` during its creation and
the creation has completed; setName of `Themes.Light` then changes name() and
the theme paths and emits nameChanged. -/
theorem setName_after_completion_changes_name :
    Reachable demoHost demoChildCompleted ∧
    demoChildCompleted.sets 5 = some completedSet ∧
    completedSet.m_completed = true ∧ completedSet.name = "Themes.Plain" ∧
    completedSet.m_themePaths = [plainFolder] ∧
    ∃ (w1 : World) (s1 : UCStyleSet),
      setName demoHost 2 5 "Themes.Light" demoChildCompleted = some w1 ∧
      w1.sets 5 = some s1 ∧ s1.name = "Themes.Light" ∧ s1.m_themePaths = [lightFolder] ∧
      s1.nameChanged = completedSet.nameChanged + 1 :=
  ⟨demoChildCompleted_reachable, rfl, rfl, by decide, rfl,
    (setName demoHost 2 5 "Themes.Light" demoChildCompleted).getD demoChildCompleted,
    { completedSet with m_name := "Themes.Light", m_themePaths := [lightFolder],
                        nameChanged := 2 },
    rfl, rfl, by decide, rfl, rfl⟩

/-- C6, on the code: loadPalette deletes the palette the style set holds
before it falls back to the default palette. On the demo machine the style
set at `5` is constructed with a QObject parent while the palette of
`defaultSet()` is the live object at `1`, so it holds that object; it has an
engine, and it is then named `Themes.Plain`, whose theme paths have no
`Palette.qml`. The default palette is deleted, `defaultSet().m_palette` reads
NULL, and palette() of the style set returns NULL. -/
theorem loadPalette_deletes_shared_default_palette :
    Reachable demoHost demoStyled ∧
    demoStyled.defaultPalette = some 1 ∧ demoStyled.alive 1 = true ∧
    (demoStyled.sets 5).map (fun s => (s.m_palette, s.m_engine)) = some (some 1, some 100) ∧
    setName demoHost 2 5 "Themes.Plain" demoStyled = some demoStyledPlain ∧
    (demoStyledPlain.sets 5).map (fun s => (s.m_themePaths, s.styleUrl demoHost "Palette.qml")) =
      some ([plainFolder], QUrl.empty) ∧
    (palette demoHost 5 demoStyledPlain).1 = none ∧
    (palette demoHost 5 demoStyledPlain).2.alive 1 = false ∧
    (palette demoHost 5 demoStyledPlain).2.defaultPalette = none :=
  ⟨demoStyled_reachable, rfl, rfl, rfl, rfl, rfl, rfl, rfl, rfl⟩

/-! ## Claims on the style component, the parent set and the icons -/

/-- The result of createStyleComponent for a parent that is not NULL; `w1`,
the second component, is the world the component is created in. -/
theorem createStyleComponent_some_parent (h : Host) (self : Nat) (styleName : String) (p : Nat)
    (w : World) (s : UCStyleSet) (hs : w.sets self = some s) :
    (createStyleComponent h self styleName (some p) w).1 =
      match h.qmlEngine p with
      | none => none
      | some e =>
        if (s.styleUrl h styleName).isValid then
          if h.componentIsError e
              ((createStyleComponent h self styleName (some p) w).2.importPathList e)
              (s.styleUrl h styleName) then none
          else some ⟨e, s.styleUrl h styleName, p⟩
        else none := by
  rw [createStyleComponent_world h self styleName p w s hs]
  unfold createStyleComponent
  rw [hs]
  simp only
  generalize (if h.qmlEngine p ≠ s.m_engine ∧ s.m_engine = none then
        updateEnginePaths h self (w.setSet self { s with m_engine := h.qmlEngine p })
      else w) = w1
  cases h.qmlEngine p with
  | none => rfl
  | some e =>
    simp only
    by_cases hv : (UCStyleSet.styleUrl h s styleName).isValid = true
    · rw [if_pos hv, if_pos hv]
      by_cases he : h.componentIsError e (w1.importPathList e) (UCStyleSet.styleUrl h s styleName) = true
      · rw [if_pos he, if_pos he]
      · rw [if_neg he, if_neg he]
    · rw [if_neg hv, if_neg hv]

/-- C5: createStyleComponent returns a component exactly when the parent is
not NULL, the parent has a QML engine, styleUrl(styleName) is valid and the
component created from that URL, by that engine with the import paths it has
by then, reports no error; the component is then the one created from
styleUrl(styleName) by the engine of the parent, with the given parent. -/
theorem createStyleComponent_non_null_iff (h : Host) (self : Nat) (styleName : String)
    (parent : Option Nat) (w : World) (s : UCStyleSet) (hs : w.sets self = some s) :
    ((createStyleComponent h self styleName parent w).1 ≠ none ↔
      ∃ (p e : Nat), parent = some p ∧ h.qmlEngine p = some e ∧
        (s.styleUrl h styleName).isValid = true ∧
        h.componentIsError e
          ((createStyleComponent h self styleName parent w).2.importPathList e)
          (s.styleUrl h styleName) = false) ∧
    (∀ c, (createStyleComponent h self styleName parent w).1 = some c →
      c.url = s.styleUrl h styleName ∧ parent = some c.parent ∧
      h.qmlEngine c.parent = some c.engine) := by
  cases parent with
  | none =>
    have hnone : (createStyleComponent h self styleName none w).1 = none := by
      simp [createStyleComponent, hs]
    rw [hnone]
    simp
  | some p =>
    rw [createStyleComponent_some_parent h self styleName p w s hs]
    generalize (createStyleComponent h self styleName (some p) w).2 = w1
    cases he : h.qmlEngine p with
    | none => simp [he]
    | some e =>
      simp only
      by_cases hv : (UCStyleSet.styleUrl h s styleName).isValid = true
      · rw [if_pos hv]
        by_cases herr : h.componentIsError e (w1.importPathList e) (UCStyleSet.styleUrl h s styleName) = true
        · rw [if_pos herr]
          simp [he, herr]
        · rw [if_neg herr]
          have herr2 : h.componentIsError e (w1.importPathList e)
              (UCStyleSet.styleUrl h s styleName) = false := by
            simpa using herr
          constructor
          · simp [he, hv, herr2]
          · intro c hc
            simp only [Option.some.injEq] at hc
            subst hc
            exact ⟨rfl, rfl, he⟩
      · rw [if_neg hv]
        simp [hv]

/-- C7: parentSet is not NULL only for a style set whose QObject parent is
a styled item that has this very set as styleSet and has a parent styled
item; it is then getStyleSet() of that parent styled item, and NULL in every
other case. -/
theorem parentSet_only_when_assigned (t : ItemTree) (self : Nat) (s : UCStyleSet) :
    (∀ r, parentSet t self s = some r →
      ∃ (owner : Nat) (o : UCStyledItemBasePrivate) (parentItem : Nat),
        s.parent = some owner ∧ t.styledItem owner = some o ∧ o.styleSet = some self ∧
        o.parentStyledItem = some parentItem ∧ t.getStyleSet parentItem = some r) ∧
    (∀ (owner : Nat) (o : UCStyledItemBasePrivate) (parentItem : Nat),
        s.parent = some owner → t.styledItem owner = some o → o.styleSet = some self →
        o.parentStyledItem = some parentItem →
        parentSet t self s = t.getStyleSet parentItem) ∧
    ((¬ ∃ (owner : Nat) (o : UCStyledItemBasePrivate) (parentItem : Nat),
        s.parent = some owner ∧ t.styledItem owner = some o ∧ o.styleSet = some self ∧
        o.parentStyledItem = some parentItem) → parentSet t self s = none) := by
  have key : ∀ (owner : Nat) (o : UCStyledItemBasePrivate) (parentItem : Nat),
      s.parent = some owner → t.styledItem owner = some o → o.styleSet = some self →
      o.parentStyledItem = some parentItem →
      parentSet t self s = t.getStyleSet parentItem := by
    intro owner o parentItem hp ho hss hpi
    simp [parentSet, hp, ho, hss, hpi]
  have none_of : (¬ ∃ (owner : Nat) (o : UCStyledItemBasePrivate) (parentItem : Nat),
      s.parent = some owner ∧ t.styledItem owner = some o ∧ o.styleSet = some self ∧
      o.parentStyledItem = some parentItem) → parentSet t self s = none := by
    intro hno
    unfold parentSet
    cases hp : s.parent with
    | none => rfl
    | some owner =>
      simp only
      cases ho : t.styledItem owner with
      | none => rfl
      | some o =>
        simp only
        by_cases hss : o.styleSet = some self
        · rw [if_pos hss]
          cases hpi : o.parentStyledItem with
          | none => rfl
          | some parentItem => exact absurd ⟨owner, o, parentItem, hp, ho, hss, hpi⟩ hno
        · rw [if_neg hss]
  refine ⟨?_, key, none_of⟩
  intro r hr
  by_contra hno
  have hex : ¬ ∃ (owner : Nat) (o : UCStyledItemBasePrivate) (parentItem : Nat),
      s.parent = some owner ∧ t.styledItem owner = some o ∧ o.styleSet = some self ∧
      o.parentStyledItem = some parentItem := by
    rintro ⟨owner, o, parentItem, hp, ho, hss, hpi⟩
    apply hno
    refine ⟨owner, o, parentItem, hp, ho, hss, hpi, ?_⟩
    rw [← key owner o parentItem hp ho hss hpi]
    exact hr
  rw [none_of hex] at hr
  cases hr

/-- Witness of C5 on the demo machine: the style set at `5`, whose theme has
a `Button.qml`, creates the component for the parent at address `3`. -/
theorem createStyleComponent_non_null_iff_witness :
    demoChildCompleted.sets 5 = some completedSet ∧
    (createStyleComponent demoHost 5 "Button.qml" (some 3) demoChildCompleted).1 =
      some ⟨100, ⟨"file", "/usr/share/Themes/Plain/Button.qml", false⟩, 3⟩ ∧
    (createStyleComponent demoHost 5 "Button.qml" (some 7) demoChildCompleted).1 = none ∧
    (createStyleComponent demoHost 5 "Label.qml" (some 3) demoChildCompleted).1 = none ∧
    ∀ c, (createStyleComponent demoHost 5 "Button.qml" (some 3) demoChildCompleted).1 = some c →
      c.url = completedSet.styleUrl demoHost "Button.qml" ∧ some 3 = some c.parent ∧
      demoHost.qmlEngine c.parent = some c.engine :=
  ⟨rfl, rfl, rfl, rfl,
    (createStyleComponent_non_null_iff demoHost 5 "Button.qml" (some 3) demoChildCompleted
      completedSet rfl).2⟩

/-- C8: requestPixmap reports in `realSize` the size of the pixmap it
returns. With no positive requested dimension that is the natural size of the
icon; with exactly one positive requested dimension the pixmap has that
dimension as requested and the other one scaled by the same factor and rounded
down. A 395x256 icon gives 24x16 for (-1,16) and (0,16), and 16x10 for (16,-1)
and (16,0). -/
theorem requestPixmap_keeps_aspect_ratio (natural requestedSize : QSize) :
    (requestPixmap natural requestedSize).realSize =
        (requestPixmap natural requestedSize).pixmapSize ∧
    (requestedSize.width ≤ 0 ∧ requestedSize.height ≤ 0 →
      (requestPixmap natural requestedSize).pixmapSize = natural) ∧
    (requestedSize.width ≤ 0 ∧ 0 < requestedSize.height →
      (requestPixmap natural requestedSize).pixmapSize.height = requestedSize.height ∧
      (requestPixmap natural requestedSize).pixmapSize.width =
        natural.width * requestedSize.height / natural.height ∧
      (0 < natural.height →
        (requestPixmap natural requestedSize).pixmapSize.width * natural.height ≤
          natural.width * requestedSize.height ∧
        natural.width * requestedSize.height <
          ((requestPixmap natural requestedSize).pixmapSize.width + 1) * natural.height)) ∧
    (0 < requestedSize.width ∧ requestedSize.height ≤ 0 →
      (requestPixmap natural requestedSize).pixmapSize.width = requestedSize.width ∧
      (requestPixmap natural requestedSize).pixmapSize.height =
        natural.height * requestedSize.width / natural.width ∧
      (0 < natural.width →
        (requestPixmap natural requestedSize).pixmapSize.height * natural.width ≤
          natural.height * requestedSize.width ∧
        natural.height * requestedSize.width <
          ((requestPixmap natural requestedSize).pixmapSize.height + 1) * natural.width)) ∧
    (requestPixmap ⟨395, 256⟩ ⟨-1, 16⟩).pixmapSize = ⟨24, 16⟩ ∧
    (requestPixmap ⟨395, 256⟩ ⟨0, 16⟩).pixmapSize = ⟨24, 16⟩ ∧
    (requestPixmap ⟨395, 256⟩ ⟨16, -1⟩).pixmapSize = ⟨16, 10⟩ ∧
    (requestPixmap ⟨395, 256⟩ ⟨16, 0⟩).pixmapSize = ⟨16, 10⟩ := by
  refine ⟨rfl, ?_, ?_, ?_, by decide, by decide, by decide, by decide⟩
  · intro hboth
    simp [requestPixmap, hboth]
  · rintro ⟨hw, hh⟩
    have hnot : ¬ (requestedSize.width ≤ 0 ∧ requestedSize.height ≤ 0) := by omega
    have hsize : (requestPixmap natural requestedSize).pixmapSize =
        ⟨natural.width * requestedSize.height / natural.height, requestedSize.height⟩ := by
      unfold requestPixmap
      simp only [if_neg hnot, if_pos hw]
    rw [hsize]
    refine ⟨rfl, rfl, fun hn => ⟨?_, ?_⟩⟩
    · exact Int.ediv_mul_le _ (ne_of_gt hn)
    · exact Int.lt_ediv_add_one_mul_self _ hn
  · rintro ⟨hw, hh⟩
    have hnot : ¬ (requestedSize.width ≤ 0 ∧ requestedSize.height ≤ 0) := by omega
    have hnw : ¬ requestedSize.width ≤ 0 := by omega
    have hsize : (requestPixmap natural requestedSize).pixmapSize =
        ⟨requestedSize.width, natural.height * requestedSize.width / natural.width⟩ := by
      unfold requestPixmap
      simp only [if_neg hnot, if_neg hnw, if_pos hh]
    rw [hsize]
    refine ⟨rfl, rfl, fun hn => ⟨?_, ?_⟩⟩
    · exact Int.ediv_mul_le _ (ne_of_gt hn)
    · exact Int.lt_ediv_add_one_mul_self _ hn

/-! ## The palette fallback in general -/

theorem defaultPalette_setSet_none (w : World) (self : Nat) (s : UCStyleSet)
    (hs : s.m_palette = none) (hn : w.defaultPalette = none) :
    (w.setSet self s).defaultPalette = none := by
  unfold World.defaultPalette at hn ⊢
  by_cases hself : defaultSet = self
  · rw [← hself, setSet_sets_self]
    simp only
    rw [hs]
    rfl
  · rw [setSet_sets_other _ _ _ _ hself]
    exact hn

/-- Whenever a style set with an engine holds a live palette and its theme
paths have no `Palette.qml`, loadPalette deletes that palette; if it is the
palette `defaultSet()` holds, the default palette reads NULL afterwards and
so does the palette of the style set. -/
theorem loadPalette_deletes_held_palette (h : Host) (notify : Bool) (self : Nat) (w : World)
    (s : UCStyleSet) (engine object : Nat) (hs : w.sets self = some s)
    (he : s.m_engine = some engine) (hd : w.data s.m_palette = some object)
    (hv : (s.styleUrl h "Palette.qml").isValid = false) :
    (loadPalette h notify self w).alive object = false ∧
    (w.defaultPalette = some object →
      (loadPalette h notify self w).defaultPalette = none ∧
      ∃ s1, (loadPalette h notify self w).sets self = some s1 ∧
        (loadPalette h notify self w).data s1.m_palette = none) := by
  have hform : loadPalette h notify self w =
      (w.deleteObject object).setSet self
        { s with m_palette := (w.deleteObject object).defaultPalette } := by
    unfold loadPalette
    rw [hs]
    simp only [he, hd, hv]
    rfl
  have hdead : ∀ p, w.data p = some object → (w.deleteObject object).data p = none := by
    intro p hp
    cases p with
    | none => rfl
    | some q =>
      have hq : q = object := by
        simp only [World.data] at hp
        split at hp
        · simpa using hp
        · cases hp
      subst hq
      simp [World.data, World.deleteObject]
  have hdefault : w.defaultPalette = some object →
      (w.deleteObject object).defaultPalette = none := by
    intro hdp
    unfold World.defaultPalette at hdp ⊢
    rw [deleteObject_sets]
    cases hds : w.sets defaultSet with
    | none => rfl
    | some d =>
      rw [hds] at hdp
      exact hdead d.m_palette hdp
  rw [hform]
  refine ⟨by simp [World.setSet, World.deleteObject], fun hdp => ?_⟩
  have hnone := hdefault hdp
  rw [hnone]
  exact ⟨defaultPalette_setSet_none _ self _ rfl hnone, _, setSet_sets_self _ _ _, rfl⟩

/-- A style set with an engine that holds no palette, and whose theme paths
have no `Palette.qml`, gets the palette of `defaultSet()` from loadPalette,
and no object is deleted. -/
theorem loadPalette_falls_back_without_palette (h : Host) (notify : Bool) (self : Nat)
    (w : World) (s : UCStyleSet) (engine : Nat) (hs : w.sets self = some s)
    (he : s.m_engine = some engine) (hd : w.data s.m_palette = none)
    (hv : (s.styleUrl h "Palette.qml").isValid = false) :
    loadPalette h notify self w = w.setSet self { s with m_palette := w.defaultPalette } ∧
    (loadPalette h notify self w).alive = w.alive := by
  have hform : loadPalette h notify self w =
      w.setSet self { s with m_palette := w.defaultPalette } := by
    unfold loadPalette
    rw [hs]
    simp only [he, hd, hv]
    rfl
  rw [hform]
  exact ⟨rfl, rfl⟩

/-! ## The rows of the tests and the demo machine -/

/-- The rows of test_loadIcon_data, for the 395x256 `battery-100-charging`
and the 512x512 `gallery-app`, hold of the modelled requestPixmap. -/
theorem requestPixmap_test_rows :
    requestPixmap ⟨395, 256⟩ ⟨-1, -1⟩ = ⟨⟨395, 256⟩, ⟨395, 256⟩⟩ ∧
    requestPixmap ⟨395, 256⟩ ⟨-1, 16⟩ = ⟨⟨24, 16⟩, ⟨24, 16⟩⟩ ∧
    requestPixmap ⟨395, 256⟩ ⟨16, -1⟩ = ⟨⟨16, 10⟩, ⟨16, 10⟩⟩ ∧
    requestPixmap ⟨395, 256⟩ ⟨0, 16⟩ = ⟨⟨24, 16⟩, ⟨24, 16⟩⟩ ∧
    requestPixmap ⟨395, 256⟩ ⟨16, 0⟩ = ⟨⟨16, 10⟩, ⟨16, 10⟩⟩ ∧
    requestPixmap ⟨395, 256⟩ ⟨24, 16⟩ = ⟨⟨24, 16⟩, ⟨24, 16⟩⟩ ∧
    requestPixmap ⟨395, 256⟩ ⟨24, 24⟩ = ⟨⟨37, 24⟩, ⟨37, 24⟩⟩ ∧
    requestPixmap ⟨395, 256⟩ ⟨37, 24⟩ = ⟨⟨37, 24⟩, ⟨37, 24⟩⟩ ∧
    requestPixmap ⟨512, 512⟩ ⟨-1, -1⟩ = ⟨⟨512, 512⟩, ⟨512, 512⟩⟩ ∧
    requestPixmap ⟨512, 512⟩ ⟨-1, 16⟩ = ⟨⟨16, 16⟩, ⟨16, 16⟩⟩ ∧
    requestPixmap ⟨512, 512⟩ ⟨16, -1⟩ = ⟨⟨16, 16⟩, ⟨16, 16⟩⟩ ∧
    requestPixmap ⟨512, 512⟩ ⟨0, 16⟩ = ⟨⟨16, 16⟩, ⟨16, 16⟩⟩ ∧
    requestPixmap ⟨512, 512⟩ ⟨16, 0⟩ = ⟨⟨16, 16⟩, ⟨16, 16⟩⟩ ∧
    requestPixmap ⟨512, 512⟩ ⟨24, 16⟩ = ⟨⟨24, 24⟩, ⟨24, 24⟩⟩ ∧
    requestPixmap ⟨512, 512⟩ ⟨24, 24⟩ = ⟨⟨24, 24⟩, ⟨24, 24⟩⟩ := by
  decide

/-- On the demo machine the search path, the theme folders and the parent
themes are as its description says. -/
theorem demoHost_themes :
    themeSearchPath demoHost = ["/home/u", "/usr/share/", "/usr/lib/qml/"] ∧
    pathFromThemeName demoHost "Themes.Dark" = darkFolder ∧
    pathFromThemeName demoHost "Themes.Light" = lightFolder ∧
    pathFromThemeName demoHost "Themes.Plain" = plainFolder ∧
    pathFromThemeName demoHost "Themes.Missing" = QUrl.empty ∧
    parentThemeName demoHost "Themes.Dark" = "Themes.Light" ∧
    parentThemeName demoHost "Themes.Light" = "" ∧
    parentThemeName demoHost "Themes.Missing" = "" := by
  decide

/-- On the demo machine the `Button.qml` of `Themes.Dark` shadows the one of
its parent `Themes.Light`, `Label.qml` comes from the parent, and a style of
neither theme gives the empty URL. -/
theorem demoHost_styleUrl :
    demoDefaultSet.styleUrl demoHost "Button.qml" =
      ⟨"file", "/usr/share/Themes/Dark/Button.qml", false⟩ ∧
    demoDefaultSet.styleUrl demoHost "Label.qml" =
      ⟨"file", "/usr/share/Themes/Light/Label.qml", false⟩ ∧
    demoDefaultSet.styleUrl demoHost "Missing.qml" = QUrl.empty := by
  decide

/-- On the demo machine the style set at `5`, owned by the styled item at
`9`, has `defaultSet()` as parent set; it has none when it is looked up at
another address, or when its parent is no styled item or has no parent item. -/
theorem demoItems_parentSet :
    parentSet demoItems 5 completedSet = some defaultSet ∧
    parentSet demoItems 6 completedSet = none ∧
    parentSet demoItems 5 { completedSet with parent := some 3 } = none ∧
    parentSet demoItems 5 { completedSet with parent := some 8 } = none ∧
    parentSet demoItems 5 { completedSet with parent := none } = none := by
  decide

end UbuntuToolkit
